import Mathlib

/-!
# import-stack-overflow: linker, orderer, serializer and book builder

A shallow embedding of `cmd/import-stack-overflow/main.go`.

* Go `int` values are `Int`; a Go `string` is a `String` (valid UTF-8, as the
  JSON loader produces), its `len` is the UTF-8 byte size and
  `strings.Contains` is substring search.
* The four package-level collections are carried in a `World` record.
* `log.Fatalf` and `u.PanicIf` abort the run: functions that can reach them
  return `Except String _`.
* The record types `DocTag`, `Topic`, `Example` and `TopicHistory` are declared
  in another file of the package; the structures below carry the fields that
  `main.go` reads or writes.
-/

namespace ImportStackOverflow

/-! ## Data model -/

/-- A documentation tag (one book). -/
structure DocTag where
  Id : Int
  Title : String
  TopicCount : Int
  ExampleCount : Int
deriving DecidableEq, Repr, Inhabited

/-- A topic of a tag (one chapter). -/
structure Topic where
  Id : Int
  DocTagId : Int
  Title : String
  VersionsJson : String
  HelloWorldVersionsHtml : String
  IntroductionMarkdown : String
  IntroductionHtml : String
  SyntaxMarkdown : String
  SyntaxHtml : String
  ParametersMarkdown : String
  ParametersHtml : String
  RemarksMarkdown : String
  RemarksHtml : String
deriving DecidableEq, Repr, Inhabited

/-- An example of a topic (one section). -/
structure Example where
  Id : Int
  DocTopicId : Int
  Title : String
  Score : Int
  IsPinned : Bool
  BodyMarkdown : String
  BodyHtml : String
deriving DecidableEq, Repr, Inhabited

/-- A join row linking a topic of a tag to an example. -/
structure TopicHistory where
  DocTagId : Int
  DocTopicId : Int
  DocExampleId : Int
deriving DecidableEq, Repr, Inhabited

/-- The package-level collections `gDocTags`, `gTopics`, `gExamples`,
`gTopicHistories`. -/
structure World where
  gDocTags : List DocTag
  gTopics : List Topic
  gExamples : List Example
  gTopicHistories : List TopicHistory
deriving Repr, Inhabited

/-- A Go `map[int]bool`: a missing key reads as `false`. -/
abbrev IntBoolMap := Int → Bool

/-- The map `make(map[int]bool)`. -/
def IntBoolMap.empty : IntBoolMap := fun _ => false

/-- The map after `m[k] = true`. -/
def IntBoolMap.setTrue (m : IntBoolMap) (k : Int) : IntBoolMap :=
  fun x => if x = k then true else m x

/-! ## Linker -/

/-- The first loop of `calcExampleCount`: the set of ids of the topics of tag `docID`. -/
def topicIdsOfTag (docID : Int) (topics : List Topic) : IntBoolMap :=
  topics.foldl (fun m topic => if topic.DocTagId = docID then m.setTrue topic.Id else m)
    IntBoolMap.empty

/-- The second loop of `calcExampleCount`: `n++` for each example whose
`DocTopicId` is in the map. -/
def countExamplesIn (topics : IntBoolMap) (examples : List Example) : Nat :=
  examples.foldl (fun n ex => if topics ex.DocTopicId then n + 1 else n) 0

/-- `calcExampleCount(docTag)`: stores the count in `docTag.ExampleCount`. -/
def calcExampleCount (w : World) (docTag : DocTag) : DocTag :=
  let docID := docTag.Id
  let topics := topicIdsOfTag docID w.gTopics
  let n := countExamplesIn topics w.gExamples
  { docTag with ExampleCount := (n : Int) }

/-- `getTopicsByDocTagID(docTagID)`: the loop appends each matching topic. -/
def getTopicsByDocTagID (w : World) (docTagID : Int) : List Topic :=
  w.gTopics.foldl (fun res topic => if topic.DocTagId = docTagID then res ++ [topic] else res) []

/-- The loop of `getExampleByID`: the first example with the id, `none` for `nil`. -/
def getExampleByIDLoop (id : Int) : List Example → Option Example
  | [] => none
  | e :: rest => if e.Id = id then some e else getExampleByIDLoop id rest

/-- `getExampleByID(id)`. -/
def getExampleByID (w : World) (id : Int) : Option Example :=
  getExampleByIDLoop id w.gExamples

/-- One iteration of the loop of `getExamplesForTopic` on the state `(res, seenIds)`. -/
def getExamplesForTopicStep (w : World) (docTagID docTopicID : Int)
    (st : List Example × IntBoolMap) (th : TopicHistory) : List Example × IntBoolMap :=
  if th.DocTagId = docTagID ∧ th.DocTopicId = docTopicID then
    let id := th.DocExampleId
    if st.2 id then st
    else
      let seenIds := st.2.setTrue id
      match getExampleByID w id with
      | none => (st.1, seenIds)
      | some ex => (st.1 ++ [ex], seenIds)
  else st

/-- `getExamplesForTopic(docTagID, docTopicID)`. -/
def getExamplesForTopic (w : World) (docTagID docTopicID : Int) : List Example :=
  (w.gTopicHistories.foldl (getExamplesForTopicStep w docTagID docTopicID)
    ([], IntBoolMap.empty)).1

/-- The first occurrence of each id of a list, in order. -/
def firstOccurrences : List Int → List Int
  | [] => []
  | x :: xs => x :: (firstOccurrences xs).filter (fun y => y ≠ x)

/-- The list the specification describes for a topic: matching rows in stored
order, first occurrence of each example id, each id looked up, the ids without
an example dropped. -/
def specExamplesForTopic (w : World) (docTagID docTopicID : Int) : List Example :=
  (firstOccurrences
    ((w.gTopicHistories.filter
      (fun th => th.DocTagId = docTagID ∧ th.DocTopicId = docTopicID)).map
        (fun th => th.DocExampleId))).filterMap
    (fun id => w.gExamples.find? (fun e => e.Id = id))

/-- The count the specification describes for a tag: the distinct ids of the
examples reachable from the tag's topics through the topic histories. -/
def specExampleCount (w : World) (docTag : DocTag) : Nat :=
  (((getTopicsByDocTagID w docTag.Id).flatMap
      (fun t => (getExamplesForTopic w docTag.Id t.Id).map (fun e => e.Id))).dedup).length

/-! ## Orderer

`sortExamples` calls `sort.Slice` of the Go standard library with a comparator
on the slice. The library routine is transcribed from `sort/zfuncversion.go`
(Go 1.8 to 1.18): `quickSort_func` with `doPivot_func`, `heapSort_func`,
`insertionSort_func`. The slice is a `List`, `data.Less(i, j)` and
`data.Swap(i, j)` read and exchange its elements. Indices are natural numbers:
every subtraction below is applied where the Go value is not negative. Loops
are recursions on the distance the loop variable still has to travel.
-/

section SortSlice

variable {α : Type} [Inhabited α]

/-- The element `data[i]`. -/
def dataAt (d : List α) (i : Nat) : α := d.getD i default

/-- The slice after `data.Swap(i, j)`. -/
def swapAt (d : List α) (i j : Nat) : List α :=
  (d.set i (dataAt d j)).set j (dataAt d i)

/-- The call `data.Less(i, j)`. -/
def lessAt (less : α → α → Bool) (d : List α) (i j : Nat) : Bool :=
  less (dataAt d i) (dataAt d j)

/-- The inner loop of `insertionSort_func`:
`for j := i; j > a && data.Less(j, j-1); j-- { data.Swap(j, j-1) }`. -/
def insertionInner (less : α → α → Bool) (a : Nat) : Nat → List α → List α
  | 0, d => d
  | j + 1, d =>
    if j + 1 > a && lessAt less d (j + 1) j then
      insertionInner less a j (swapAt d (j + 1) j)
    else d

/-- The outer loop of `insertionSort_func`, `for ; i < b; i++`, with `k = b - i`. -/
def insertionOuter (less : α → α → Bool) (a b : Nat) : Nat → Nat → List α → List α
  | 0, _, d => d
  | k + 1, i, d =>
    if i < b then insertionOuter less a b k (i + 1) (insertionInner less a i d) else d

/-- `insertionSort_func(data, a, b)`. -/
def insertionSort_func (less : α → α → Bool) (d : List α) (a b : Nat) : List α :=
  insertionOuter less a b (b - (a + 1)) (a + 1) d

/-- The loop of `siftDown_func(data, lo, hi, first)` from `root`, with
`k = hi - root`. -/
def siftDownLoop (less : α → α → Bool) (hi first : Nat) : Nat → Nat → List α → List α
  | 0, _, d => d
  | k + 1, root, d =>
    let child := 2 * root + 1
    if child ≥ hi then d
    else
      let child :=
        if child + 1 < hi && lessAt less d (first + child) (first + child + 1) then child + 1
        else child
      if !lessAt less d (first + root) (first + child) then d
      else siftDownLoop less hi first k child (swapAt d (first + root) (first + child))

/-- `siftDown_func(data, lo, hi, first)`. -/
def siftDown_func (less : α → α → Bool) (d : List α) (lo hi first : Nat) : List α :=
  siftDownLoop less hi first (hi - lo) lo d

/-- The first loop of `heapSort_func`, `for i := (hi-1)/2; i >= 0; i--`, with
`n = i + 1`. -/
def heapBuild (less : α → α → Bool) (hi first : Nat) : Nat → List α → List α
  | 0, d => d
  | i + 1, d => heapBuild less hi first i (siftDown_func less d i hi first)

/-- The second loop of `heapSort_func`, `for i := hi-1; i >= 0; i--`, with
`n = i + 1`. -/
def heapPop (less : α → α → Bool) (lo first : Nat) : Nat → List α → List α
  | 0, d => d
  | i + 1, d => heapPop less lo first i (siftDown_func less (swapAt d first (first + i)) lo i first)

/-- `heapSort_func(data, a, b)`. -/
def heapSort_func (less : α → α → Bool) (d : List α) (a b : Nat) : List α :=
  let first := a
  let lo := 0
  let hi := b - a
  let d := heapBuild less hi first ((hi - 1) / 2 + 1) d
  heapPop less lo first hi d

/-- `medianOfThree_func(data, m1, m0, m2)`. -/
def medianOfThree_func (less : α → α → Bool) (d : List α) (m1 m0 m2 : Nat) : List α :=
  let d := if lessAt less d m1 m0 then swapAt d m1 m0 else d
  if lessAt less d m2 m1 then
    let d := swapAt d m2 m1
    if lessAt less d m1 m0 then swapAt d m1 m0 else d
  else d

/-- `for ; a < c && data.Less(a, pivot); a++ {}` with `k = c - a`: the final `a`. -/
def scanLessPivot (less : α → α → Bool) (d : List α) (pivot c : Nat) : Nat → Nat → Nat
  | 0, a => a
  | k + 1, a => if a < c && lessAt less d a pivot then scanLessPivot less d pivot c k (a + 1) else a

/-- `for ; b < c && !data.Less(pivot, b); b++ {}` with `k = c - b`: the final `b`. -/
def scanNotGreater (less : α → α → Bool) (d : List α) (pivot c : Nat) : Nat → Nat → Nat
  | 0, b => b
  | k + 1, b =>
    if b < c && !lessAt less d pivot b then scanNotGreater less d pivot c k (b + 1) else b

/-- `for ; b < c && data.Less(pivot, c-1); c-- {}`: the final `c`. -/
def scanGreater (less : α → α → Bool) (d : List α) (pivot b : Nat) : Nat → Nat
  | 0 => 0
  | c + 1 => if b < c + 1 && lessAt less d pivot c then scanGreater less d pivot b c else c + 1

/-- The partition loop of `doPivot_func` on `(data, b, c)`, with `k` at least
the number of iterations. -/
def partitionLoop (less : α → α → Bool) (pivot : Nat) :
    Nat → List α → Nat → Nat → List α × Nat × Nat
  | 0, d, b, c => (d, b, c)
  | k + 1, d, b, c =>
    let b := scanNotGreater less d pivot c (c - b) b
    let c := scanGreater less d pivot b c
    if b ≥ c then (d, b, c)
    else partitionLoop less pivot k (swapAt d b (c - 1)) (b + 1) (c - 1)

/-- `for ; a < b && !data.Less(b-1, pivot); b-- {}`: the final `b`. -/
def scanEqualDown (less : α → α → Bool) (d : List α) (pivot a : Nat) : Nat → Nat
  | 0 => 0
  | b + 1 => if a < b + 1 && !lessAt less d b pivot then scanEqualDown less d pivot a b else b + 1

/-- The duplicate-protection loop of `doPivot_func` on `(data, a, b)`, with `k`
at least the number of iterations. -/
def protectLoop (less : α → α → Bool) (pivot : Nat) :
    Nat → List α → Nat → Nat → List α × Nat × Nat
  | 0, d, a, b => (d, a, b)
  | k + 1, d, a, b =>
    let b := scanEqualDown less d pivot a b
    let a := scanLessPivot less d pivot b (b - a) a
    if a ≥ b then (d, a, b)
    else protectLoop less pivot k (swapAt d a (b - 1)) (a + 1) (b - 1)

/-- The three probes for elements equal to the pivot in `doPivot_func`:
the state `(data, b, c, dups)` after them. -/
def probeDups (less : α → α → Bool) (d : List α) (pivot m hi b c : Nat) :
    List α × Nat × Nat × Nat :=
  let s1 : List α × Nat × Nat :=
    if !lessAt less d pivot (hi - 1) then (swapAt d c (hi - 1), c + 1, 1) else (d, c, 0)
  let d := s1.1
  let c := s1.2.1
  let dups := s1.2.2
  let s2 : Nat × Nat := if !lessAt less d (b - 1) pivot then (b - 1, dups + 1) else (b, dups)
  let b := s2.1
  let dups := s2.2
  if !lessAt less d m pivot then (swapAt d m (b - 1), b - 1, c, dups + 1) else (d, b, c, dups)

/-- `doPivot_func(data, lo, hi)`: the slice, `midlo` and `midhi`. -/
def doPivot_func (less : α → α → Bool) (d : List α) (lo hi : Nat) : List α × Nat × Nat :=
  let m := (lo + hi) / 2
  let d :=
    if hi - lo > 40 then
      let s := (hi - lo) / 8
      let d := medianOfThree_func less d lo (lo + s) (lo + 2 * s)
      let d := medianOfThree_func less d m (m - s) (m + s)
      medianOfThree_func less d (hi - 1) (hi - 1 - s) (hi - 1 - 2 * s)
    else d
  let d := medianOfThree_func less d lo m (hi - 1)
  let pivot := lo
  let a := lo + 1
  let c := hi - 1
  let a := scanLessPivot less d pivot c (c - a) a
  let b := a
  let s := partitionLoop less pivot (c - b + 1) d b c
  let d := s.1
  let b := s.2.1
  let c := s.2.2
  let protect := decide (hi - c < 5)
  let p : (List α × Nat × Nat) × Bool :=
    if !protect && hi - c < (hi - lo) / 4 then
      let r := probeDups less d pivot m hi b c
      ((r.1, r.2.1, r.2.2.1), decide (r.2.2.2 > 1))
    else ((d, b, c), protect)
  let d := p.1.1
  let b := p.1.2.1
  let c := p.1.2.2
  let protect := p.2
  let q : List α × Nat × Nat :=
    if protect then protectLoop less pivot (b - a + 1) d a b else (d, a, b)
  let d := q.1
  let b := q.2.2
  (swapAt d pivot (b - 1), b - 1, c)

/-- The ShellSort pass of `quickSort_func`, `for i := a + 6; i < b; i++`, with
`k = b - i`. -/
def shellPass (less : α → α → Bool) (b : Nat) : Nat → Nat → List α → List α
  | 0, _, d => d
  | k + 1, i, d =>
    if i < b then
      shellPass less b k (i + 1) (if lessAt less d i (i - 6) then swapAt d i (i - 6) else d)
    else d

/-- `quickSort_func(data, a, b, maxDepth)`. An iteration of its loop that
continues with a new `a` or `b` is the call on the new bounds. -/
def quickSort_func (less : α → α → Bool) : Nat → List α → Nat → Nat → List α
  | maxDepth, d, a, b =>
    if b - a > 12 then
      match maxDepth with
      | 0 => heapSort_func less d a b
      | maxDepth + 1 =>
        let r := doPivot_func less d a b
        let d := r.1
        let mlo := r.2.1
        let mhi := r.2.2
        if mlo - a < b - mhi then
          quickSort_func less maxDepth (quickSort_func less maxDepth d a mlo) mhi b
        else
          quickSort_func less maxDepth (quickSort_func less maxDepth d mhi b) a mlo
    else if b - a > 1 then
      insertionSort_func less (shellPass less b (b - (a + 6)) (a + 6) d) a b
    else d

/-- The loop of `maxDepth(n)`, `for i := n; i > 0; i >>= 1 { depth++ }`, with
`k` at least `i`. -/
def maxDepthLoop : Nat → Nat → Nat → Nat
  | 0, _, depth => depth
  | k + 1, i, depth => if i > 0 then maxDepthLoop k (i / 2) (depth + 1) else depth

/-- `maxDepth(n)`. -/
def maxDepth (n : Nat) : Nat := maxDepthLoop n n 0 * 2

/-- `sort.Slice(slice, less)`, the comparator given on the elements. -/
def sortSlice (less : α → α → Bool) (d : List α) : List α :=
  quickSort_func less (maxDepth d.length) d 0 d.length

end SortSlice

/-- The comparator `sortExamples` passes to `sort.Slice`, on the elements
`a[i]` and `a[j]`. -/
def exampleLess (x y : Example) : Bool :=
  if x.IsPinned then true
  else if y.IsPinned then false
  else decide (x.Score > y.Score)

/-- `sortExamples(a)`: the slice after the call. -/
def sortExamples (a : List Example) : List Example :=
  sortSlice exampleLess a

/-- The order of the key `(isPinned ? 0 : 1, -score)`: `x` may stand before `y`. -/
def keyLe (x y : Example) : Prop :=
  x.IsPinned = true ∨ (y.IsPinned = false ∧ y.Score ≤ x.Score)

/-! ## Serializer -/

/-- Go `unicode.IsSpace`: the Latin-1 cases, then the `White_Space` table. -/
def isSpace (c : Char) : Bool :=
  let r := c.toNat
  if r ≤ 0xFF then
    r = 0x09 || r = 0x0A || r = 0x0B || r = 0x0C || r = 0x0D || r = 0x20 || r = 0x85 || r = 0xA0
  else
    r = 0x1680 || (0x2000 ≤ r && r ≤ 0x200A) || r = 0x2028 || r = 0x2029 || r = 0x202F
      || r = 0x205F || r = 0x3000

/-- Go `strings.TrimSpace`: leading and trailing white space removed. -/
def stringsTrimSpace (s : String) : String :=
  ⟨((s.data.dropWhile isSpace).reverse.dropWhile isSpace).reverse⟩

/-- Substring search on the characters. -/
def containsChars : List Char → List Char → Bool
  | [], sub => sub.isEmpty
  | c :: s, sub => sub.isPrefixOf (c :: s) || containsChars s sub

/-- Go `strings.Contains(s, substr)`. -/
def stringsContains (s substr : String) : Bool :=
  containsChars s.data substr.data

/-- Go `len(s)`: the number of bytes of the string. -/
def goLen (s : String) : Nat := s.utf8ByteSize

/-- `serFitsOneLine(s)`. -/
def serFitsOneLine (s : String) : Bool :=
  if goLen s > 80 then false
  else if stringsContains s "\n" then false
  else if stringsContains s ":" then false
  else true

/-- `isEmptyString(s)`. -/
def isEmptyString (s : String) : Bool :=
  goLen (stringsTrimSpace s) == 0

/-- The collaborators of package `mdutil` used by the serializer:
`mdutil.KVRecordSeparator` and `mdutil.Process` (through `mdFmt`, whose
arguments are the source and the default language). -/
structure Mdutil where
  KVRecordSeparator : String
  mdFmt : String → String → Except String String

/-- `serField(k, v)`; `u.PanicIf` is the `error` result. -/
def serField (m : Mdutil) (k v : String) : Except String String :=
  if isEmptyString v then .ok ""
  else if serFitsOneLine v then .ok (k ++ ": " ++ v ++ "\n")
  else if stringsContains v m.KVRecordSeparator then .error "v contains KVRecordSeparator"
  else .ok (k ++ ":\n" ++ v ++ "\n" ++ m.KVRecordSeparator ++ "\n")

/-- The package variable `reformatMarkdown`. -/
def reformatMarkdown : Bool := false

/-- `serFieldMarkdown(k, v)`, with `currDefaultLang` passed in. -/
def serFieldMarkdown (m : Mdutil) (currDefaultLang : String) (k v : String) :
    Except String String :=
  if isEmptyString v then .ok ""
  else if reformatMarkdown then
    match m.mdFmt v currDefaultLang with
    | .error e => .error e
    | .ok d => serField m k d
  else serField m k v

/-- Go `strconv.Itoa`: decimal text, a minus sign for a negative number. -/
def strconvItoa (n : Int) : String :=
  if n < 0 then "-" ++ Nat.repr n.natAbs else Nat.repr n.toNat

/-- The number that a text of decimal digits stands for, the most significant
digit first. -/
def decimalValue (cs : List Char) : Nat :=
  cs.foldl (fun acc c => 10 * acc + (c.toNat - '0'.toNat)) 0

/-- The text `s` that `writeSectionMust` builds before writing the file. -/
def sectionText (m : Mdutil) (currDefaultLang : String) (ex : Example) :
    Except String String := do
  let s ← serField m "Title" ex.Title
  let s := s ++ (← serField m "Score" (strconvItoa ex.Score))
  let s := s ++ (← serFieldMarkdown m currDefaultLang "Body" ex.BodyMarkdown)
  if isEmptyString ex.BodyMarkdown then
    return s ++ (← serField m "BodyHtml" ex.BodyHtml)
  else
    return s

/-- The files written so far, oldest first: path and content. -/
abbrev Files := List (String × String)

/-- `writeSectionMust(path, example)`: the text is written to `path`. -/
def writeSectionMust (m : Mdutil) (currDefaultLang : String) (path : String) (ex : Example)
    (fs : Files) : Except String Files := do
  let s ← sectionText m currDefaultLang ex
  return fs ++ [(path, s)]

/-! ## Serializer: chapter record -/

/-- The statement `s += f`: the text `s` followed by the text of `f`, or the
fatal error of `f`. -/
def appendField (s : String) (f : Except String String) : Except String String :=
  match f with
  | .error e => .error e
  | .ok t => .ok (s ++ t)

/-- `shortenVersion(s)`. -/
def shortenVersion (s : String) : String :=
  if s = "[]" then "" else s

/-- The text `s` that `writeIndexTxtMust` builds before writing the file. -/
def indexText (m : Mdutil) (currDefaultLang : String) (topic : Topic) :
    Except String String := do
  let s ← serField m "Title" topic.Title
  let versions := shortenVersion topic.VersionsJson
  let s ← appendField s (serField m "Versions" versions)
  let s ← (if isEmptyString versions then
    appendField s (serField m "VersionsHtml" topic.HelloWorldVersionsHtml)
    else pure s)
  let s ← appendField s
    (serFieldMarkdown m currDefaultLang "Introduction" topic.IntroductionMarkdown)
  let s ← (if isEmptyString topic.IntroductionMarkdown then
    appendField s (serField m "IntroductionHtml" topic.IntroductionHtml)
    else pure s)
  let s ← appendField s (serFieldMarkdown m currDefaultLang "Syntax" topic.SyntaxMarkdown)
  let s ← (if isEmptyString topic.SyntaxMarkdown then
    appendField s (serField m "SyntaxHtml" topic.SyntaxHtml)
    else pure s)
  let s ← appendField s
    (serFieldMarkdown m currDefaultLang "Parameters" topic.ParametersMarkdown)
  let s ← (if isEmptyString topic.ParametersMarkdown then
    appendField s (serField m "ParametersHtml" topic.ParametersHtml)
    else pure s)
  let s ← appendField s (serFieldMarkdown m currDefaultLang "Remarks" topic.RemarksMarkdown)
  let s ← (if isEmptyString topic.RemarksMarkdown then
    appendField s (serField m "RemarksHtml" topic.RemarksHtml)
    else pure s)
  pure s

/-- `writeIndexTxtMust(path, topic)`: the text is written to `path`. -/
def writeIndexTxtMust (m : Mdutil) (currDefaultLang : String) (path : String) (topic : Topic)
    (fs : Files) : Except String Files := do
  let s ← indexText m currDefaultLang topic
  return fs ++ [(path, s)]

/-! ## Book builder

`genBook` runs on the collections, the files written so far, the list
`emptyExamplexs` and the lines printed so far. Creating directories and writing
a file succeed; `log.Fatalf` and a panic of the serializer are the `error`
result, which ends the run. Elapsed times are not part of a printed line.
-/

/-- A book of `mdutil.BooksToProcess`: its name, the value of `NewName()` and
the import flag. -/
structure Book where
  Name : String
  newName : String
  Import : Bool
deriving Repr, Inhabited

/-- The collaborators that build paths: `mdutil.MakeURLSafe` and
`filepath.Join` on the list of its arguments. -/
structure PathLib where
  MakeURLSafe : String → String
  filepathJoin : List String → String

/-- The line `Imported <name> (<nChapters> chapters, <nSections> sections)`. -/
structure ImportReport where
  name : String
  nChapters : Nat
  nSections : Nat
deriving DecidableEq, Repr, Inhabited

/-- What a run has produced so far: the files, the package variable
`emptyExamplexs` and the printed import lines. -/
structure RunState where
  files : Files
  emptyExamplexs : List Example
  reports : List ImportReport
deriving Repr, Inhabited

/-- `findDocTagByTitleMust(docTags, title)`; `log.Fatalf` is the `error` result. -/
def findDocTagByTitleMust : List DocTag → String → Except String DocTag
  | [], title => .error ("Didn't find DocTag with title '" ++ title ++ "'\n")
  | dc :: rest, title => if dc.Title = title then .ok dc else findDocTagByTitleMust rest title

/-- Go `fmt.Sprintf("%0<width>d", n)` for a number that is not negative. -/
def fmtZeroPadded (width n : Nat) : String :=
  String.mk (List.replicate (width - (Nat.repr n).length) '0') ++ Nat.repr n

/-- The directory name `fmt.Sprintf("%04d-%s", chapter, mdutil.MakeURLSafe(t.Title))`. -/
def chapterDirName (lib : PathLib) (chapter : Nat) (t : Topic) : String :=
  fmtZeroPadded 4 chapter ++ "-" ++ lib.MakeURLSafe t.Title

/-- The file name `fmt.Sprintf("%03d-%s.md", section, mdutil.MakeURLSafe(ex.Title))`. -/
def sectionFileName (lib : PathLib) (sectionNo : Nat) (ex : Example) : String :=
  fmtZeroPadded 3 sectionNo ++ "-" ++ lib.MakeURLSafe ex.Title ++ ".md"

/-- The test of `genBook` for an example without text:
`isEmptyString(ex.BodyMarkdown) && isEmptyString(ex.BodyHtml)`. -/
def bothBodiesEmpty (ex : Example) : Bool :=
  isEmptyString ex.BodyMarkdown && isEmptyString ex.BodyHtml

/-- The loop of `genBook` over the examples of a topic, from the section
number `sectionNo`. -/
def genBookSections (m : Mdutil) (lib : PathLib) (currDefaultLang dirPath : String) :
    List Example → Nat → RunState → Except String RunState
  | [], _, st => .ok st
  | ex :: rest, sectionNo, st =>
    if bothBodiesEmpty ex then
      genBookSections m lib currDefaultLang dirPath rest sectionNo
        { st with emptyExamplexs := st.emptyExamplexs ++ [ex] }
    else
      let fileName := sectionFileName lib sectionNo ex
      let path := lib.filepathJoin [dirPath, fileName]
      match writeSectionMust m currDefaultLang path ex st.files with
      | .error e => .error e
      | .ok fs =>
        genBookSections m lib currDefaultLang dirPath rest (sectionNo + 10) { st with files := fs }

/-- The loop of `genBook` over the topics, from the chapter number `chapter`
and the count `nSections`. -/
def genBookTopics (w : World) (m : Mdutil) (lib : PathLib) (currDefaultLang bookDstDir : String)
    (docTagId : Int) : List Topic → Nat → Nat → RunState → Except String (Nat × RunState)
  | [], _, nSections, st => .ok (nSections, st)
  | t :: rest, chapter, nSections, st =>
    let examples := sortExamples (getExamplesForTopic w docTagId t.Id)
    let dirChapter := chapterDirName lib chapter t
    let dirPath := lib.filepathJoin ["books", bookDstDir, dirChapter]
    let chapterIndexPath := lib.filepathJoin [dirPath, "index.txt"]
    match writeIndexTxtMust m currDefaultLang chapterIndexPath t st.files with
    | .error e => .error e
    | .ok fs =>
      match genBookSections m lib currDefaultLang dirPath examples 10 { st with files := fs } with
      | .error e => .error e
      | .ok st =>
        genBookTopics w m lib currDefaultLang bookDstDir docTagId rest (chapter + 10)
          (nSections + examples.length) st

/-- `genBook(book, defaultLang)`. -/
def genBook (w : World) (m : Mdutil) (lib : PathLib) (book : Book) (defaultLang : String)
    (st : RunState) : Except String RunState :=
  let name := book.Name
  let newName := book.newName
  let currDefaultLang := defaultLang
  let bookDstDir := lib.MakeURLSafe newName
  match findDocTagByTitleMust w.gDocTags name with
  | .error e => .error e
  | .ok docTag =>
    let topics := getTopicsByDocTagID w docTag.Id
    let nChapters := topics.length
    match genBookTopics w m lib currDefaultLang bookDstDir docTag.Id topics 10 0 st with
    | .error e => .error e
    | .ok r => .ok { r.2 with reports := r.2.reports ++ [⟨name, nChapters, r.1⟩] }

/-! ## Book builder: the run the specification describes -/

/-- Planned writes in order: the path and the text, or the fatal error met
when the text is built. -/
abbrev WritePlan := List (String × Except String String)

/-- The planned writes carried out in order on the files `fs`; the first fatal
error ends the run. -/
def runWrites : WritePlan → Files → Except String Files
  | [], fs => .ok fs
  | (_, .error e) :: _, _ => .error e
  | (p, .ok s) :: rest, fs => runWrites rest (fs ++ [(p, s)])

/-- The examples of a topic in presentation order. -/
def orderedExamples (w : World) (docTagId : Int) (t : Topic) : List Example :=
  sortExamples (getExamplesForTopic w docTagId t.Id)

/-- The directory of the topic numbered `i` (from 0) of a book: chapter
number `10 * (i + 1)`. -/
def specChapterDir (lib : PathLib) (bookDstDir : String) (i : Nat) (t : Topic) : String :=
  lib.filepathJoin ["books", bookDstDir, chapterDirName lib (10 * (i + 1)) t]

/-- The writes the specification describes for the topic numbered `i` (from 0):
the index file of the chapter, then one section file for each example with a
text, the one numbered `j` (from 0) among them with section number
`10 * (j + 1)`. -/
def specTopicWrites (m : Mdutil) (lib : PathLib) (lang bookDstDir : String) (i : Nat)
    (t : Topic) (examples : List Example) : WritePlan :=
  (lib.filepathJoin [specChapterDir lib bookDstDir i t, "index.txt"], indexText m lang t) ::
    ((examples.filter (fun ex => !bothBodiesEmpty ex)).enum.map
      (fun je => (lib.filepathJoin [specChapterDir lib bookDstDir i t,
        sectionFileName lib (10 * (je.1 + 1)) je.2], sectionText m lang je.2)))

/-- The writes the specification describes for the topics of a book, in source
order. -/
def specBookWrites (w : World) (m : Mdutil) (lib : PathLib) (lang bookDstDir : String)
    (docTagId : Int) (topics : List Topic) : WritePlan :=
  topics.enum.flatMap
    (fun it => specTopicWrites m lib lang bookDstDir it.1 it.2 (orderedExamples w docTagId it.2))

/-! ## Orderer: the comparator the specification describes -/

/-- The sort key `(isPinned ? 0 : 1, -score)` of an example. -/
def sortKey (e : Example) : Nat × Int :=
  (if e.IsPinned then 0 else 1, -e.Score)

/-- The comparator derived from the key: the key of `x` is lexicographically
smaller than the key of `y`. -/
def keyLess (x y : Example) : Prop :=
  (sortKey x).1 < (sortKey y).1 ∨ ((sortKey x).1 = (sortKey y).1 ∧ (sortKey x).2 < (sortKey y).2)

/-- Two examples tie: same pinned status and same score. -/
def sameRank (x y : Example) : Prop :=
  x.IsPinned = y.IsPinned ∧ x.Score = y.Score

/-! ## Orderer: notions used to state what `sort.Slice` achieves -/

section SortNotions

variable {α : Type} [Inhabited α]

/-- The slice `d'` holds the elements of `d`, moved only inside `[a, b)`. -/
structure Rearr (a b : Nat) (d d' : List α) : Prop where
  len : d'.length = d.length
  perm : d'.Perm d
  out : ∀ k, k < a ∨ b ≤ k → dataAt d' k = dataAt d k
  within : ∀ k, a ≤ k → k < b → ∃ k', a ≤ k' ∧ k' < b ∧ dataAt d' k = dataAt d k'

/-- The comparator `less` lies between the strict and the non-strict part of
the preorder `le`: a `true` answer gives `le x y`, a `false` answer `le y x`. -/
structure Sandwich (less : α → α → Bool) (le : α → α → Prop) : Prop where
  of_less : ∀ x y, less x y = true → le x y
  of_not_less : ∀ x y, less x y = false → le y x
  trans : ∀ x y z, le x y → le y z → le x z

/-- The elements of `d` at `[a, b)` are in `le` order. -/
def SortedSeg (le : α → α → Prop) (d : List α) (a b : Nat) : Prop :=
  ∀ i j, a ≤ i → i < j → j < b → le (dataAt d i) (dataAt d j)

/-- The heap property of `d` at `first + [0, hi)` for the nodes from `s` on:
a child never stands after its parent in `le` order reversed. -/
def HeapFrom (le : α → α → Prop) (d : List α) (first hi s : Nat) : Prop :=
  ∀ i c, s ≤ i → (c = 2 * i + 1 ∨ c = 2 * i + 2) → c < hi →
    le (dataAt d (first + c)) (dataAt d (first + i))

/-- The three regions `doPivot_func` builds around the pivot value `p`:
`(lo, b)` not after `p`, `[b, c)` equivalent to `p`, `[c, hi)` not before `p`. -/
def Regions (le : α → α → Prop) (d : List α) (p : α) (lo b c hi : Nat) : Prop :=
  (∀ i, lo < i → i < b → le (dataAt d i) p) ∧
  (∀ i, b ≤ i → i < c → le (dataAt d i) p ∧ le p (dataAt d i)) ∧
  (∀ i, c ≤ i → i < hi → le p (dataAt d i))

end SortNotions

/-! ## Sample data -/

/-- A separator and an identity formatter, for the sample runs. -/
def sampleMdutil : Mdutil := ⟨"|======|", fun s _ => .ok s⟩

/-- An example with the given id, pinned flag and score, and empty texts. -/
def sampleExample (id : Int) (pinned : Bool) (score : Int) : Example :=
  ⟨id, 0, "", score, pinned, "", ""⟩

/-- A tag with one topic; a history row points at example 100, whose own
`DocTopicId` names no topic of the tag. -/
def sampleWorld : World :=
  { gDocTags := [⟨1, "Foo", 1, 0⟩]
    gTopics := [{ (default : Topic) with Id := 5, DocTagId := 1, Title := "Intro" }]
    gExamples := [⟨100, 9, "first", 5, false, "A", ""⟩]
    gTopicHistories := [⟨1, 5, 100⟩] }

/-- A topic with a versions text, a markdown introduction and a syntax text in
HTML only. -/
def sampleTopic (versionsJson : String) : Topic :=
  ⟨5, 1, "Intro", versionsJson, "<p>v</p>", "hello", "<p>hello</p>", "", "<p>s</p>", "", "", "",
    ""⟩

/-- A slug that keeps the text and a join with `/`, for the sample runs. -/
def samplePathLib : PathLib := ⟨fun s => s, fun l => String.intercalate "/" l⟩

/-- The book `Foo`, written to the directory of `foo`. -/
def sampleBook : Book := ⟨"Foo", "foo", true⟩

/-- The tag `Foo` with the topics 5 and 6 and a topic of another tag; topic 5
has the examples 100, 101 and 102, the last one without text, topic 6 the
example 103. -/
def sampleBookWorld : World :=
  { gDocTags := [⟨2, "Bar", 1, 0⟩, ⟨1, "Foo", 2, 0⟩]
    gTopics := [{ (default : Topic) with Id := 5, DocTagId := 1, Title := "Intro" },
      { (default : Topic) with Id := 7, DocTagId := 2, Title := "Other" },
      { (default : Topic) with Id := 6, DocTagId := 1, Title := "Next", VersionsJson := "[]" }]
    gExamples := [⟨100, 5, "first", 5, false, "A", ""⟩, ⟨101, 5, "second", 9, true, "B", ""⟩,
      ⟨102, 5, "blank", 7, false, " ", ""⟩, ⟨103, 6, "third", 1, false, "", "<p>C</p>"⟩]
    gTopicHistories := [⟨1, 5, 100⟩, ⟨1, 5, 101⟩, ⟨1, 5, 102⟩, ⟨1, 6, 103⟩] }

/-- The run state before anything is written. -/
def sampleStart : RunState := ⟨[], [], []⟩

/-- The scenario of the specification: the tag `Foo`, its topic `Intro`, two
history rows and the examples 100 and 101 with the titles `titleA` and
`titleB`; the fields the scenario does not name are zero. -/
def scenarioWorld (titleA titleB : String) : World :=
  { gDocTags := [⟨1, "Foo", 0, 0⟩]
    gTopics := [{ (default : Topic) with Id := 5, DocTagId := 1, Title := "Intro" }]
    gExamples := [⟨100, 0, titleA, 5, false, "A", ""⟩, ⟨101, 0, titleB, 9, true, "B", ""⟩]
    gTopicHistories := [⟨1, 5, 100⟩, ⟨1, 5, 101⟩] }

/-! ## Linker: resolved examples of a topic -/

set_option maxRecDepth 8192

theorem getExampleByIDLoop_eq_find (id : Int) (l : List Example) :
    getExampleByIDLoop id l = l.find? (fun e => e.Id = id) := by
  induction l with
  | nil => rfl
  | cons e rest ih =>
    by_cases h : e.Id = id
    · simp [getExampleByIDLoop, h]
    · simp [getExampleByIDLoop, h, ih]

theorem getExampleByIDLoop_id {id : Int} {l : List Example} {ex : Example}
    (h : getExampleByIDLoop id l = some ex) : ex.Id = id := by
  rw [getExampleByIDLoop_eq_find] at h
  simpa using List.find?_some h

/-- The result of the loop of `getExamplesForTopic` over the rows `l`, started
with the examples `res` and the seen ids `seen`. -/
theorem getExamplesForTopic_fold (w : World) (a b : Int) (l : List TopicHistory) :
    ∀ (res : List Example) (seen : IntBoolMap),
      (l.foldl (getExamplesForTopicStep w a b) (res, seen)).1 =
        res ++ ((firstOccurrences ((l.filter
          (fun th => th.DocTagId = a ∧ th.DocTopicId = b)).map
            (fun th => th.DocExampleId))).filter (fun y => !seen y)).filterMap
          (fun id => getExampleByID w id) := by
  induction l with
  | nil => intro res seen; simp [firstOccurrences]
  | cons th l ih =>
    intro res seen
    rw [List.foldl_cons]
    by_cases hm : th.DocTagId = a ∧ th.DocTopicId = b
    · by_cases hs : seen th.DocExampleId = true
      · have hstep : getExamplesForTopicStep w a b (res, seen) th = (res, seen) := by
          simp [getExamplesForTopicStep, hm, hs]
        rw [hstep, ih]
        simp only [List.filter_cons, hm, and_self, decide_True, if_true, List.map_cons,
          firstOccurrences, hs, Bool.not_true, Bool.false_eq_true, if_false, List.filter_filter]
        congr 2
        apply List.filter_congr
        intro y _
        by_cases hy : y = th.DocExampleId
        · subst hy; simp [hs]
        · simp [hy]
      · have hs' : seen th.DocExampleId = false := by simpa using hs
        cases hl : getExampleByID w th.DocExampleId with
        | none =>
          have hstep : getExamplesForTopicStep w a b (res, seen) th =
              (res, seen.setTrue th.DocExampleId) := by
            simp [getExamplesForTopicStep, hm, hs', hl]
          rw [hstep, ih]
          simp only [List.filter_cons, hm, and_self, decide_True, if_true, List.map_cons,
            firstOccurrences, hs', Bool.not_false, List.filterMap_cons, hl, List.filter_filter]
          congr 2
          apply List.filter_congr
          intro y _
          by_cases hy : y = th.DocExampleId
          · subst hy; simp [IntBoolMap.setTrue]
          · simp [IntBoolMap.setTrue, hy]
        | some ex =>
          have hstep : getExamplesForTopicStep w a b (res, seen) th =
              (res ++ [ex], seen.setTrue th.DocExampleId) := by
            simp [getExamplesForTopicStep, hm, hs', hl]
          rw [hstep, ih]
          simp only [List.filter_cons, hm, and_self, decide_True, if_true, List.map_cons,
            firstOccurrences, hs', Bool.not_false, List.filterMap_cons, hl, List.filter_filter,
            List.append_assoc, List.singleton_append]
          congr 3
          apply List.filter_congr
          intro y _
          by_cases hy : y = th.DocExampleId
          · subst hy; simp [IntBoolMap.setTrue]
          · simp [IntBoolMap.setTrue, hy]
    · have hstep : getExamplesForTopicStep w a b (res, seen) th = (res, seen) := by
        simp [getExamplesForTopicStep, hm]
      rw [hstep, ih]
      simp [List.filter_cons, hm]

theorem firstOccurrences_nodup (l : List Int) : (firstOccurrences l).Nodup := by
  induction l with
  | nil => simp [firstOccurrences]
  | cons x xs ih =>
    simp only [firstOccurrences, List.nodup_cons]
    refine ⟨?_, ih.filter _⟩
    simp [List.mem_filter]

theorem map_id_filterMap_lookup (w : World) (ids : List Int) :
    (ids.filterMap (fun id => getExampleByID w id)).map (fun e => e.Id) =
      ids.filter (fun id => (getExampleByID w id).isSome) := by
  induction ids with
  | nil => rfl
  | cons x xs ih =>
    cases h : getExampleByID w x with
    | none => simp [List.filterMap_cons, h, ih]
    | some e =>
      have he : e.Id = x := getExampleByIDLoop_id h
      simp [List.filterMap_cons, h, ih, he]

/-- C3: for every tag id, topic id and every content of the collections,
repeated topic-history rows included, the ids of the examples returned by
`getExamplesForTopic` are pairwise distinct. -/
theorem getExamplesForTopic_nodup_ids (w : World) (docTagID docTopicID : Int) :
    ((getExamplesForTopic w docTagID docTopicID).map (fun e => e.Id)).Nodup := by
  unfold getExamplesForTopic
  rw [getExamplesForTopic_fold, List.nil_append, map_id_filterMap_lookup]
  exact ((firstOccurrences_nodup _).filter _).filter _

/-- C4: `getExamplesForTopic` is total and returns the list the specification
describes (matching rows in stored order, first occurrence of each example id,
each id looked up, missing ids dropped), and the lookup `getExampleByID` yields
the first example of the collection with the id, or nothing. -/
theorem getExamplesForTopic_eq_spec (w : World) (docTagID docTopicID : Int) :
    getExamplesForTopic w docTagID docTopicID = specExamplesForTopic w docTagID docTopicID ∧
    ∀ id, getExampleByID w id = w.gExamples.find? (fun e => e.Id = id) := by
  have hfind : ∀ id, getExampleByID w id = w.gExamples.find? (fun e => e.Id = id) :=
    fun id => getExampleByIDLoop_eq_find id w.gExamples
  refine ⟨?_, hfind⟩
  unfold getExamplesForTopic specExamplesForTopic
  rw [getExamplesForTopic_fold]
  simp only [IntBoolMap.empty, Bool.not_false, List.filter_true, List.nil_append]
  congr 1
  funext id
  exact hfind id

/-! ## Linker: example count -/

theorem topicIdsOfTag_fold (docID : Int) (topics : List Topic) :
    ∀ (m : IntBoolMap) (x : Int),
      topics.foldl (fun m topic => if topic.DocTagId = docID then m.setTrue topic.Id else m) m x =
        (m x || topics.any (fun t => decide (t.DocTagId = docID) && decide (t.Id = x))) := by
  induction topics with
  | nil => intro m x; simp
  | cons t ts ih =>
    intro m x
    rw [List.foldl_cons, ih]
    by_cases h : t.DocTagId = docID
    · by_cases hx : x = t.Id
      · simp [h, hx, IntBoolMap.setTrue]
      · have hx' : ¬ t.Id = x := fun e => hx e.symm
        simp [h, hx, hx', IntBoolMap.setTrue]
    · simp [h]

theorem countExamplesIn_fold (topics : IntBoolMap) (examples : List Example) :
    ∀ n : Nat, examples.foldl (fun n ex => if topics ex.DocTopicId then n + 1 else n) n =
      n + (examples.filter (fun ex => topics ex.DocTopicId)).length := by
  induction examples with
  | nil => intro n; simp
  | cons e es ih =>
    intro n
    rw [List.foldl_cons, ih]
    by_cases h : topics e.DocTopicId = true
    · simp [h, List.filter_cons]; omega
    · simp [h, List.filter_cons]

/-- C5, as the code has it: `calcExampleCount` changes only `ExampleCount`, and
stores the number of entries of the example collection whose own `DocTopicId`
is the id of a topic of the tag; the topic-history rows are not read. -/
theorem calcExampleCount_counts_by_DocTopicId (w : World) (docTag : DocTag) :
    calcExampleCount w docTag =
      { docTag with
        ExampleCount := ((w.gExamples.filter (fun ex => w.gTopics.any
          (fun t => decide (t.DocTagId = docTag.Id) && decide (t.Id = ex.DocTopicId)))).length
            : Int) } := by
  unfold calcExampleCount countExamplesIn
  simp only [countExamplesIn_fold, Nat.zero_add]
  congr 4
  funext ex
  unfold topicIdsOfTag
  rw [topicIdsOfTag_fold]
  simp [IntBoolMap.empty]

/-- C5 fails as stated: in `sampleWorld` one distinct example (id 100) is
reachable from the tag's topic through the history rows, and
`calcExampleCount` stores 0. -/
theorem calcExampleCount_counterexample :
    getExamplesForTopic sampleWorld 1 5 = [⟨100, 9, "first", 5, false, "A", ""⟩] ∧
      specExampleCount sampleWorld ⟨1, "Foo", 1, 0⟩ = 1 ∧
      (calcExampleCount sampleWorld ⟨1, "Foo", 1, 0⟩).ExampleCount = 0 := by
  decide

/-! ## Serializer -/

theorem utf8ByteSize_go_ge_length (l : List Char) :
    l.length ≤ String.utf8ByteSize.go l := by
  induction l with
  | nil => simp [String.utf8ByteSize.go]
  | cons c cs ih =>
    have := c.utf8Size_pos
    simp only [String.utf8ByteSize.go, List.length_cons]
    omega

theorem length_le_goLen (s : String) : s.length ≤ goLen s := by
  cases s with
  | mk l => exact utf8ByteSize_go_ge_length l

theorem goLen_eq_zero_iff (s : String) : goLen s = 0 ↔ s.data = [] := by
  cases s with
  | mk l =>
    constructor
    · intro h
      have := utf8ByteSize_go_ge_length l
      have h' : String.utf8ByteSize.go l = 0 := h
      show l = []
      exact List.length_eq_zero.mp (by omega)
    · intro h
      simp only at h
      subst h
      rfl

/-- The test `isEmptyString` holds exactly for the strings made of white space only. -/
theorem isEmptyString_iff (s : String) :
    isEmptyString s = true ↔ ∀ c ∈ s.data, isSpace c = true := by
  unfold isEmptyString
  rw [beq_iff_eq, goLen_eq_zero_iff]
  simp only [stringsTrimSpace, List.reverse_eq_nil_iff, List.dropWhile_eq_nil_iff,
    List.mem_reverse]
  constructor
  · intro h c hc
    by_contra hns
    have hne : s.data.dropWhile isSpace ≠ [] := by
      intro hnil
      exact hns (List.dropWhile_eq_nil_iff.mp hnil c hc)
    obtain ⟨x, xs, hx⟩ := List.exists_cons_of_ne_nil hne
    have hhead : ¬ isSpace x = true := by
      have := List.head_dropWhile_not isSpace s.data hne
      simpa [hx] using this
    exact hhead (h x (by simp [hx]))
  · intro h c hc
    exact h c ((List.dropWhile_sublist _).subset hc)

theorem containsChars_iff (s sub : List Char) : containsChars s sub = true ↔ sub <:+: s := by
  induction s with
  | nil => simp [containsChars, List.isEmpty_iff]
  | cons c s ih =>
    simp only [containsChars, Bool.or_eq_true, ih, List.isPrefixOf_iff_prefix]
    rw [List.infix_cons_iff]

theorem stringsContains_iff (s sub : String) :
    stringsContains s sub = true ↔ sub.data <:+: s.data :=
  containsChars_iff _ _

theorem stringsContains_char_iff (s : String) (c : Char) :
    stringsContains s (String.singleton c) = true ↔ c ∈ s.data := by
  rw [stringsContains_iff]
  show [c] <:+: s.data ↔ c ∈ s.data
  constructor
  · rintro ⟨a, b, h⟩
    rw [← h]
    simp
  · intro h
    obtain ⟨a, b, h⟩ := List.append_of_mem h
    exact ⟨a, b, by simp [h]⟩


theorem serFitsOneLine_iff (s : String) :
    serFitsOneLine s = true ↔ goLen s ≤ 80 ∧ '\n' ∉ s.data ∧ ':' ∉ s.data := by
  have h1 := stringsContains_char_iff s '\n'
  have h2 := stringsContains_char_iff s ':'
  have e1 : String.singleton '\n' = "\n" := rfl
  have e2 : String.singleton ':' = ":" := rfl
  rw [e1] at h1
  rw [e2] at h2
  unfold serFitsOneLine
  by_cases hl : goLen s > 80
  · simp [hl]
  · by_cases hn : stringsContains s "\n" = true
    · simp [hl, hn, h1.mp hn]
    · by_cases hc : stringsContains s ":" = true
      · simp [hl, hn, hc, h2.mp hc]
      · have hn' : '\n' ∉ s.data := fun h => hn (h1.mpr h)
        have hc' : ':' ∉ s.data := fun h => hc (h2.mpr h)
        simp [hl, hn, hc, hn', hc']
        omega

/-- C6: for every key and every value that is empty or made of white space
only, `serField` and `serFieldMarkdown` return the empty string: no line and no
block for the key. -/
theorem serField_whitespace_is_omitted (m : Mdutil) (lang k v : String)
    (h : ∀ c ∈ v.data, isSpace c = true) :
    serField m k v = .ok "" ∧ serFieldMarkdown m lang k v = .ok "" := by
  have he : isEmptyString v = true := (isEmptyString_iff v).mpr h
  simp [serField, serFieldMarkdown, he]

/-- C6 at the value made of a blank, a tab and a newline. -/
theorem serField_whitespace_is_omitted_witness :
    (∀ c ∈ " \t\n".data, isSpace c = true) ∧
      serField sampleMdutil "Body" " \t\n" = .ok "" ∧
      serFieldMarkdown sampleMdutil "" "Body" " \t\n" = .ok "" :=
  ⟨by decide, serField_whitespace_is_omitted _ _ _ _ (by decide)⟩

/-- C7 fails as stated: the value `" "` is non-empty, has no newline, no colon
and one character, and is omitted; the value of 41 letters `é` has 41
characters and 82 bytes, and is written as a block. -/
theorem serField_single_line_counterexample :
    ((" " : String) ≠ "" ∧ '\n' ∉ (" " : String).data ∧ ':' ∉ (" " : String).data ∧
        (" " : String).length ≤ 80 ∧
        serField sampleMdutil "Title" " " = .ok "") ∧
    ((String.mk (List.replicate 41 'é')) ≠ "" ∧
        '\n' ∉ (String.mk (List.replicate 41 'é')).data ∧
        ':' ∉ (String.mk (List.replicate 41 'é')).data ∧
        (String.mk (List.replicate 41 'é')).length ≤ 80 ∧
        serField sampleMdutil "Title" (String.mk (List.replicate 41 'é')) =
          .ok ("Title" ++ ":\n" ++ String.mk (List.replicate 41 'é') ++ "\n" ++ "|======|"
            ++ "\n")) := by
  refine ⟨⟨by decide, by decide, by decide, by decide, rfl⟩, ⟨by decide, by decide, by decide, by decide, rfl⟩⟩

/-- C7, as the code has it: for every key and every value that is not made of
white space only, has no newline, no colon and at most 80 bytes, `serField`
returns the single-line form. -/
theorem serField_single_line (m : Mdutil) (k v : String)
    (hne : ¬ ∀ c ∈ v.data, isSpace c = true) (hnl : '\n' ∉ v.data) (hcolon : ':' ∉ v.data)
    (hlen : goLen v ≤ 80) :
    serField m k v = .ok (k ++ ": " ++ v ++ "\n") := by
  have he : isEmptyString v = false := by
    rw [← Bool.not_eq_true, isEmptyString_iff]; exact hne
  have hf : serFitsOneLine v = true := (serFitsOneLine_iff v).mpr ⟨hlen, hnl, hcolon⟩
  simp [serField, he, hf]

/-- C7 at a value of exactly 80 bytes. -/
theorem serField_single_line_witness :
    (¬ ∀ c ∈ (String.mk (List.replicate 80 'x')).data, isSpace c = true) ∧
      '\n' ∉ (String.mk (List.replicate 80 'x')).data ∧
      ':' ∉ (String.mk (List.replicate 80 'x')).data ∧
      goLen (String.mk (List.replicate 80 'x')) = 80 ∧
      serField sampleMdutil "Title" (String.mk (List.replicate 80 'x')) =
        .ok ("Title" ++ ": " ++ String.mk (List.replicate 80 'x') ++ "\n") :=
  ⟨by decide, by decide, by decide, by decide,
    serField_single_line _ _ _ (by decide) (by decide) (by decide) (by decide)⟩

/-- C8: for every key and every value that is not made of white space only,
does not contain the separator, and has a newline, a colon or more than 80
characters, `serField` returns the block form. -/
theorem serField_block (m : Mdutil) (k v : String)
    (hne : ¬ ∀ c ∈ v.data, isSpace c = true)
    (hsep : ¬ m.KVRecordSeparator.data <:+: v.data)
    (hblock : '\n' ∈ v.data ∨ ':' ∈ v.data ∨ 80 < v.length) :
    serField m k v = .ok (k ++ ":\n" ++ v ++ "\n" ++ m.KVRecordSeparator ++ "\n") := by
  have he : isEmptyString v = false := by
    rw [← Bool.not_eq_true, isEmptyString_iff]; exact hne
  have hf : serFitsOneLine v = false := by
    rw [← Bool.not_eq_true, serFitsOneLine_iff]
    have := length_le_goLen v
    rintro ⟨h1, h2, h3⟩
    rcases hblock with h | h | h
    · exact h2 h
    · exact h3 h
    · omega
  have hs : stringsContains v m.KVRecordSeparator = false := by
    rw [← Bool.not_eq_true, stringsContains_iff]; exact hsep
  simp [serField, he, hf, hs]

/-- C8 at a value of exactly 81 characters. -/
theorem serField_block_witness :
    (¬ ∀ c ∈ (String.mk (List.replicate 81 'x')).data, isSpace c = true) ∧
      (¬ sampleMdutil.KVRecordSeparator.data <:+: (String.mk (List.replicate 81 'x')).data) ∧
      (String.mk (List.replicate 81 'x')).length = 81 ∧
      serField sampleMdutil "Title" (String.mk (List.replicate 81 'x')) =
        .ok ("Title" ++ ":\n" ++ String.mk (List.replicate 81 'x') ++ "\n" ++ "|======|"
          ++ "\n") :=
  ⟨by decide, by decide, by decide,
    serField_block sampleMdutil _ _ (by decide) (by decide) (Or.inr (Or.inr (by decide)))⟩

/-- C9 fails as stated: a value that contains the separator and fits on one
line is written in the single-line form, without an error. -/
theorem serField_separator_counterexample :
    ("|======|" : String).data <:+: ("a |======| b" : String).data ∧
      serField sampleMdutil "Title" "a |======| b" =
        .ok "Title: a |======| b\n" := by
  refine ⟨by decide, rfl⟩

/-- C9, as the code has it: for every key and every value that contains the
separator, is not made of white space only and does not fit on one line (a
newline, a colon or more than 80 bytes), `serField` stops with the fatal error
and returns no text. -/
theorem serField_separator_fatal (m : Mdutil) (k v : String)
    (hne : ¬ ∀ c ∈ v.data, isSpace c = true)
    (hblock : '\n' ∈ v.data ∨ ':' ∈ v.data ∨ 80 < goLen v)
    (hsep : m.KVRecordSeparator.data <:+: v.data) :
    serField m k v = .error "v contains KVRecordSeparator" := by
  have he : isEmptyString v = false := by
    rw [← Bool.not_eq_true, isEmptyString_iff]; exact hne
  have hf : serFitsOneLine v = false := by
    rw [← Bool.not_eq_true, serFitsOneLine_iff]
    rintro ⟨h1, h2, h3⟩
    rcases hblock with h | h | h
    · exact h2 h
    · exact h3 h
    · omega
  have hs : stringsContains v m.KVRecordSeparator = true := (stringsContains_iff _ _).mpr hsep
  simp [serField, he, hf, hs]

/-- C9 at a two-line value that contains the separator. -/
theorem serField_separator_fatal_witness :
    (¬ ∀ c ∈ ("a:\n|======|\n" : String).data, isSpace c = true) ∧
      '\n' ∈ ("a:\n|======|\n" : String).data ∧
      sampleMdutil.KVRecordSeparator.data <:+: ("a:\n|======|\n" : String).data ∧
      serField sampleMdutil "Body" "a:\n|======|\n" = .error "v contains KVRecordSeparator" :=
  ⟨by decide, by decide, by decide,
    serField_separator_fatal sampleMdutil _ _ (by decide) (Or.inl (by decide)) (by decide)⟩

/-- The text of a section is the `Title` field, then the `Score` field, then
one body field. -/
theorem sectionText_fields (m : Mdutil) (lang : String) (ex : Example) :
    sectionText m lang ex =
      (do
        let title ← serField m "Title" ex.Title
        let score ← serField m "Score" (strconvItoa ex.Score)
        let body ←
          if isEmptyString ex.BodyMarkdown then serField m "BodyHtml" ex.BodyHtml
          else serField m "Body" ex.BodyMarkdown
        pure (title ++ score ++ body)) := by
  unfold sectionText serFieldMarkdown
  cases h1 : serField m "Title" ex.Title with
  | error e => rfl
  | ok t =>
    cases h2 : serField m "Score" (strconvItoa ex.Score) with
    | error e => rfl
    | ok s =>
      by_cases he : isEmptyString ex.BodyMarkdown = true
      · cases h3 : serField m "BodyHtml" ex.BodyHtml with
        | error e => simp [he, h3, bind, Except.bind]
        | ok b => simp [he, h3, bind, Except.bind, pure, Except.pure]
      · cases h3 : serField m "Body" ex.BodyMarkdown with
        | error e => simp [he, h3, bind, Except.bind, reformatMarkdown]
        | ok b => simp [he, h3, bind, Except.bind, pure, Except.pure, reformatMarkdown]


/-- The file `writeSectionMust` writes, field by field: the `Title` field, the
`Score` field of the text of `strconvItoa`, then one body field; a fatal error
of a field aborts the write. -/
theorem writeSectionMust_fields (m : Mdutil) (lang path : String) (ex : Example) (fs : Files) :
    writeSectionMust m lang path ex fs =
      (do
        let title ← serField m "Title" ex.Title
        let score ← serField m "Score" (strconvItoa ex.Score)
        let body ←
          if isEmptyString ex.BodyMarkdown then serField m "BodyHtml" ex.BodyHtml
          else serField m "Body" ex.BodyMarkdown
        pure (fs ++ [(path, title ++ score ++ body)])) := by
  unfold writeSectionMust
  rw [sectionText_fields]
  cases serField m "Title" ex.Title with
  | error e => rfl
  | ok t =>
    cases serField m "Score" (strconvItoa ex.Score) with
    | error e => rfl
    | ok sc =>
      by_cases he : isEmptyString ex.BodyMarkdown = true
      · cases h3 : serField m "BodyHtml" ex.BodyHtml with
        | error e => simp [he, h3, bind, Except.bind]
        | ok b => simp [he, h3, bind, Except.bind, pure, Except.pure]
      · cases h3 : serField m "Body" ex.BodyMarkdown with
        | error e => simp [he, h3, bind, Except.bind]
        | ok b => simp [he, h3, bind, Except.bind, pure, Except.pure]


/-! ## Serializer: the score in decimal -/

theorem decimalValue_append_singleton (cs : List Char) (c : Char) :
    decimalValue (cs ++ [c]) = 10 * decimalValue cs + (c.toNat - '0'.toNat) := by
  simp [decimalValue, List.foldl_append]

theorem digitChar_decimal (k : Nat) (hk : k < 10) :
    (Nat.digitChar k).isDigit = true ∧ (Nat.digitChar k).toNat - '0'.toNat = k ∧
      (Nat.digitChar k = '0' → k = 0) := by
  interval_cases k <;> decide

theorem toDigitsCore_append (fuel : Nat) :
    ∀ (n : Nat) (ds : List Char),
      Nat.toDigitsCore 10 fuel n ds = Nat.toDigitsCore 10 fuel n [] ++ ds := by
  induction fuel with
  | zero => intro n ds; simp [Nat.toDigitsCore]
  | succ fuel ih =>
    intro n ds
    simp only [Nat.toDigitsCore]
    by_cases h : n / 10 = 0
    · simp [h]
    · simp only [h, if_false]
      rw [ih (n / 10) (Nat.digitChar (n % 10) :: ds), ih (n / 10) [Nat.digitChar (n % 10)]]
      simp

/-- The digits `Nat.toDigitsCore` produces for `n` with enough fuel: decimal
digits of value `n`, without a leading zero unless the text is `0`. -/
theorem toDigitsCore_decimal (fuel : Nat) :
    ∀ n : Nat, n < fuel →
      Nat.toDigitsCore 10 fuel n [] ≠ [] ∧
      (∀ c ∈ Nat.toDigitsCore 10 fuel n [], c.isDigit = true) ∧
      decimalValue (Nat.toDigitsCore 10 fuel n []) = n ∧
      ((Nat.toDigitsCore 10 fuel n []).head? = some '0' →
        Nat.toDigitsCore 10 fuel n [] = ['0']) := by
  induction fuel with
  | zero => intro n hn; omega
  | succ fuel ih =>
    intro n hn
    have hd := digitChar_decimal (n % 10) (Nat.mod_lt _ (by decide))
    simp only [Nat.toDigitsCore]
    by_cases h : n / 10 = 0
    · simp only [h, if_true]
      have hn10 : n % 10 = n := by omega
      refine ⟨by simp, ?_, ?_, ?_⟩
      · intro c hc
        simp only [List.mem_singleton] at hc
        rw [hc]; exact hd.1
      · simp only [decimalValue, List.foldl_cons, List.foldl_nil]
        have := hd.2.1
        omega
      · intro h0
        simp only [List.head?_cons, Option.some.injEq] at h0
        rw [h0]
    · simp only [h, if_false]
      rw [toDigitsCore_append]
      have hlt : n / 10 < fuel := by omega
      obtain ⟨hne, hdig, hval, hzero⟩ := ih (n / 10) hlt
      refine ⟨by simp, ?_, ?_, ?_⟩
      · intro c hc
        simp only [List.mem_append, List.mem_singleton] at hc
        rcases hc with hc | hc
        · exact hdig c hc
        · rw [hc]; exact hd.1
      · rw [decimalValue_append_singleton, hval]
        have := hd.2.1
        omega
      · intro h0
        exfalso
        obtain ⟨x, xs, hx⟩ := List.exists_cons_of_ne_nil hne
        rw [hx] at h0 hzero hval
        simp only [List.cons_append, List.head?_cons, Option.some.injEq] at h0
        have := hzero (by simp [h0])
        rw [this] at hval
        simp [decimalValue] at hval
        omega

/-- The text of `Nat.repr`: decimal digits of value `n`, without a leading zero
unless the text is `0`. -/
theorem natRepr_decimal (n : Nat) :
    (Nat.repr n).data ≠ [] ∧ (∀ c ∈ (Nat.repr n).data, c.isDigit = true) ∧
      decimalValue (Nat.repr n).data = n ∧
      ((Nat.repr n).data.head? = some '0' → (Nat.repr n).data = ['0']) :=
  toDigitsCore_decimal (n + 1) n (Nat.lt_succ_self n)

/-- A decimal digit is one byte, and is neither white space, nor a line end,
nor a colon. -/
theorem isDigit_plain (c : Char) (h : c.isDigit = true) :
    c.utf8Size = 1 ∧ isSpace c = false ∧ c ≠ '\n' ∧ c ≠ ':' := by
  have hv : 48 ≤ c.toNat ∧ c.toNat ≤ 57 := by
    simp only [Char.isDigit, Bool.and_eq_true, decide_eq_true_eq] at h
    have h1 : (48 : UInt32).toNat ≤ c.val.toNat := h.1
    have h2 : c.val.toNat ≤ (57 : UInt32).toNat := h.2
    exact ⟨h1, h2⟩
  refine ⟨?_, ?_, ?_, ?_⟩
  · have : c.val.toNat ≤ 127 := by
      have := hv.2
      simp only [Char.toNat] at this
      omega
    simp only [Char.utf8Size]
    rw [if_pos]
    rw [UInt32.le_def]
    simpa using this
  · unfold isSpace
    simp only
    rw [if_pos (by omega)]
    simp
    omega
  · intro hc
    rw [hc] at hv
    simp at hv
  · intro hc
    rw [hc] at hv
    simp at hv

theorem strconvItoa_data (n : Int) :
    (strconvItoa n).data = (if n < 0 then ['-'] else []) ++ (Nat.repr n.natAbs).data := by
  unfold strconvItoa
  by_cases hn : n < 0
  · simp only [hn, if_true, String.data_append]
  · simp only [hn, if_false, List.nil_append]
    have : n.toNat = n.natAbs := by omega
    rw [this]

/-- The text of `strconvItoa`: a minus sign for a negative number, then the
decimal digits of the absolute value. -/
theorem strconvItoa_decimal (n : Int) :
    ∃ digits : List Char,
      strconvItoa n = (if n < 0 then "-" else "") ++ String.mk digits ∧
      digits ≠ [] ∧ (∀ c ∈ digits, c.isDigit = true) ∧
      decimalValue digits = n.natAbs ∧ (digits.head? = some '0' → digits = ['0']) := by
  obtain ⟨h1, h2, h3, h4⟩ := natRepr_decimal n.natAbs
  refine ⟨(Nat.repr n.natAbs).data, ?_, h1, h2, h3, h4⟩
  apply String.ext
  rw [strconvItoa_data, String.data_append]
  by_cases hn : n < 0
  · simp only [hn, if_true]
  · simp only [hn, if_false]

theorem utf8ByteSize_go_plain (l : List Char) (h : ∀ c ∈ l, c.utf8Size = 1) :
    String.utf8ByteSize.go l = l.length := by
  induction l with
  | nil => rfl
  | cons c cs ih =>
    simp only [String.utf8ByteSize.go, List.length_cons]
    rw [ih (fun x hx => h x (List.mem_cons_of_mem _ hx)), h c (List.mem_cons_self _ _)]

/-- The decimal text of a 64-bit integer is not blank and fits on one line. -/
theorem strconvItoa_one_line (n : Int) (hlo : -2 ^ 63 ≤ n) (hhi : n < 2 ^ 63) :
    isEmptyString (strconvItoa n) = false ∧ serFitsOneLine (strconvItoa n) = true := by
  obtain ⟨hne, hdig, -, -⟩ := natRepr_decimal n.natAbs
  have hlen : (Nat.repr n.natAbs).data.length ≤ 19 := by
    have hb : n.natAbs < 10 ^ 19 := by
      norm_num at hlo hhi ⊢
      omega
    exact Nat.repr_length n.natAbs 19 (by decide) hb
  have hplain : ∀ c ∈ (strconvItoa n).data,
      c.utf8Size = 1 ∧ isSpace c = false ∧ c ≠ '\n' ∧ c ≠ ':' := by
    intro c hc
    rw [strconvItoa_data, List.mem_append] at hc
    rcases hc with hc | hc
    · by_cases hn : n < 0
      · simp only [hn, if_true, List.mem_singleton] at hc
        rw [hc]
        decide
      · simp [hn] at hc
    · exact isDigit_plain c (hdig c hc)
  constructor
  · rw [Bool.eq_false_iff]
    intro he
    rw [isEmptyString_iff] at he
    obtain ⟨x, xs, hx⟩ := List.exists_cons_of_ne_nil hne
    have hmem : x ∈ (strconvItoa n).data := by
      rw [strconvItoa_data, hx]
      simp
    have := (hplain x hmem).2.1
    rw [he x hmem] at this
    exact Bool.noConfusion this
  · rw [serFitsOneLine_iff]
    refine ⟨?_, fun h => (hplain _ h).2.2.1 rfl, fun h => (hplain _ h).2.2.2 rfl⟩
    have hsize : goLen (strconvItoa n) = (strconvItoa n).data.length :=
      utf8ByteSize_go_plain _ (fun c hc => (hplain c hc).1)
    rw [hsize, strconvItoa_data, List.length_append]
    have : (if n < 0 then ['-'] else []).length ≤ 1 := by
      split <;> simp
    omega

/-- The `Score` field of a 64-bit score is always written, on one line. -/
theorem serField_score (m : Mdutil) (n : Int) (hlo : -2 ^ 63 ≤ n) (hhi : n < 2 ^ 63) :
    serField m "Score" (strconvItoa n) = .ok ("Score: " ++ strconvItoa n ++ "\n") := by
  obtain ⟨h1, h2⟩ := strconvItoa_one_line n hlo hhi
  simp [serField, h1, h2]

/-- C10: for every example whose score is a 64-bit integer, `writeSectionMust`
writes to its path the `Title` field, then the line `Score: ` with the score in
decimal, then exactly one body field: `Body` with `BodyMarkdown` when that is
not blank, else `BodyHtml` with `BodyHtml`; a fatal error of the title or body
field aborts the write. The decimal text is a minus sign for a negative score
followed by decimal digits whose value is the absolute value of the score,
without a leading zero unless the text is `0`. -/
theorem writeSectionMust_text (m : Mdutil) (lang path : String) (ex : Example) (fs : Files)
    (hlo : -2 ^ 63 ≤ ex.Score) (hhi : ex.Score < 2 ^ 63) :
    writeSectionMust m lang path ex fs =
      (do
        let title ← serField m "Title" ex.Title
        let body ←
          (if isEmptyString ex.BodyMarkdown then serField m "BodyHtml" ex.BodyHtml
          else serField m "Body" ex.BodyMarkdown)
        pure (fs ++ [(path, title ++ ("Score: " ++ strconvItoa ex.Score ++ "\n") ++ body)])) ∧
      ∃ digits : List Char,
        strconvItoa ex.Score = (if ex.Score < 0 then "-" else "") ++ String.mk digits ∧
        digits ≠ [] ∧ (∀ c ∈ digits, c.isDigit = true) ∧
        decimalValue digits = ex.Score.natAbs ∧ (digits.head? = some '0' → digits = ['0']) := by
  refine ⟨?_, strconvItoa_decimal ex.Score⟩
  rw [writeSectionMust_fields, serField_score m ex.Score hlo hhi]
  cases serField m "Title" ex.Title with
  | error e => rfl
  | ok t =>
    by_cases he : isEmptyString ex.BodyMarkdown = true
    · cases h3 : serField m "BodyHtml" ex.BodyHtml with
      | error e => simp [he, h3, bind, Except.bind]
      | ok b => simp [he, h3, bind, Except.bind, pure, Except.pure]
    · cases h3 : serField m "Body" ex.BodyMarkdown with
      | error e => simp [he, h3, bind, Except.bind]
      | ok b => simp [he, h3, bind, Except.bind, pure, Except.pure]

/-- C10 on an example with the score -42 and a markdown body, and on one with
the score 0 and a body in HTML only. -/
theorem writeSectionMust_text_witness :
    (-2 ^ 63 ≤ (-42 : Int) ∧ (-42 : Int) < 2 ^ 63) ∧
    writeSectionMust sampleMdutil "" "books/foo/0010-Intro/010-first.md"
        ⟨100, 5, "first", -42, false, "A", "<p>A</p>"⟩ [] =
      .ok [("books/foo/0010-Intro/010-first.md", "Title: first\nScore: -42\nBody: A\n")] ∧
    writeSectionMust sampleMdutil "" "books/foo/0010-Intro/020-next.md"
        ⟨101, 5, "next", 0, false, " ", "<p>B</p>"⟩ [] =
      .ok [("books/foo/0010-Intro/020-next.md", "Title: next\nScore: 0\nBodyHtml: <p>B</p>\n")] :=
  ⟨by decide,
    (writeSectionMust_text sampleMdutil "" _ ⟨100, 5, "first", -42, false, "A", "<p>A</p>"⟩ []
      (by decide) (by decide)).1.trans rfl,
    (writeSectionMust_text sampleMdutil "" _ ⟨101, 5, "next", 0, false, " ", "<p>B</p>"⟩ []
      (by decide) (by decide)).1.trans rfl⟩

/-! ## Orderer: exchanges -/

section SortProofs

variable {α : Type} [Inhabited α]

set_option linter.unusedSectionVars false

theorem length_swapAt (d : List α) (i j : Nat) : (swapAt d i j).length = d.length := by
  simp [swapAt]

theorem dataAt_set (d : List α) (i k : Nat) (v : α) (hi : i < d.length) :
    dataAt (d.set i v) k = if k = i then v else dataAt d k := by
  unfold dataAt
  by_cases h : k = i
  · subst h
    simp [List.getD_eq_getElem?_getD, List.getElem?_set, hi]
  · have h' : ¬ i = k := fun e => h e.symm
    simp [List.getD_eq_getElem?_getD, List.getElem?_set, h, h']

theorem dataAt_swapAt (d : List α) (i j k : Nat) (hi : i < d.length) (hj : j < d.length) :
    dataAt (swapAt d i j) k =
      if k = j then dataAt d i else if k = i then dataAt d j else dataAt d k := by
  unfold swapAt
  rw [dataAt_set _ _ _ _ (by simpa using hj), dataAt_set _ _ _ _ hi]

theorem dataAt_eq_getElem (d : List α) (i : Nat) (h : i < d.length) : dataAt d i = d[i] := by
  simp [dataAt, List.getD_eq_getElem?_getD, h]

theorem set_perm_cons (t : List α) (b : α) :
    ∀ j, j < t.length → (dataAt t j :: t.set j b).Perm (b :: t) := by
  induction t with
  | nil => intro j hj; simp at hj
  | cons u t ih =>
    intro j hj
    cases j with
    | zero => simpa [dataAt] using List.Perm.swap b u t
    | succ j =>
      have hj' : j < t.length := by simpa using hj
      have e : dataAt (u :: t) (j + 1) = dataAt t j := by simp [dataAt]
      rw [e, List.set_cons_succ]
      exact (List.Perm.swap u (dataAt t j) _).trans
        (((ih j hj').cons u).trans (List.Perm.swap b u t))

theorem swapAt_perm (d : List α) :
    ∀ i j, i < d.length → j < d.length → (swapAt d i j).Perm d := by
  induction d with
  | nil => intro i j hi; simp at hi
  | cons h t ih =>
    intro i j hi hj
    cases i with
    | zero =>
      cases j with
      | zero => simp [swapAt, dataAt]
      | succ j =>
        have hj' : j < t.length := by simpa using hj
        have := set_perm_cons t h j hj'
        simpa [swapAt, dataAt] using this
    | succ i =>
      have hi' : i < t.length := by simpa using hi
      cases j with
      | zero =>
        have := set_perm_cons t h i hi'
        simpa [swapAt, dataAt] using this
      | succ j =>
        have hj' : j < t.length := by simpa using hj
        have := ih i j hi' hj'
        simpa [swapAt, dataAt] using this

theorem Rearr.refl (a b : Nat) (d : List α) : Rearr a b d d :=
  ⟨rfl, List.Perm.refl _, fun _ _ => rfl, fun k h1 h2 => ⟨k, h1, h2, rfl⟩⟩

theorem Rearr.trans {a b : Nat} {d d' d'' : List α} (h1 : Rearr a b d d')
    (h2 : Rearr a b d' d'') : Rearr a b d d'' := by
  refine ⟨h2.len.trans h1.len, h2.perm.trans h1.perm, fun k hk => ?_, fun k ha hb => ?_⟩
  · rw [h2.out k hk, h1.out k hk]
  · obtain ⟨k', ha', hb', e'⟩ := h2.within k ha hb
    obtain ⟨k'', ha'', hb'', e''⟩ := h1.within k' ha' hb'
    exact ⟨k'', ha'', hb'', e'.trans e''⟩

theorem Rearr.mono {a b a' b' : Nat} {d d' : List α} (h : Rearr a b d d') (ha : a' ≤ a)
    (hb : b ≤ b') : Rearr a' b' d d' := by
  refine ⟨h.len, h.perm, fun k hk => h.out k (by omega), fun k hka hkb => ?_⟩
  by_cases hin : a ≤ k ∧ k < b
  · obtain ⟨k', h1, h2, e⟩ := h.within k hin.1 hin.2
    exact ⟨k', by omega, by omega, e⟩
  · exact ⟨k, hka, hkb, h.out k (by omega)⟩

theorem Rearr.swap {a b : Nat} (d : List α) {i j : Nat} (hia : a ≤ i) (hib : i < b)
    (hja : a ≤ j) (hjb : j < b) (hb : b ≤ d.length) : Rearr a b d (swapAt d i j) := by
  have hi : i < d.length := by omega
  have hj : j < d.length := by omega
  refine ⟨length_swapAt d i j, swapAt_perm d i j hi hj, fun k hk => ?_, fun k hka hkb => ?_⟩
  · rw [dataAt_swapAt d i j k hi hj, if_neg (by omega), if_neg (by omega)]
  · rw [dataAt_swapAt d i j k hi hj]
    by_cases h1 : k = j
    · exact ⟨i, hia, hib, by simp [h1]⟩
    · by_cases h2 : k = i
      · subst h2
        exact ⟨j, hja, hjb, by simp [h1]⟩
      · exact ⟨k, hka, hkb, by simp [h1, h2]⟩

theorem Rearr.forall_within {a b : Nat} {d d' : List α} (h : Rearr a b d d') {P : α → Prop}
    (hP : ∀ k, a ≤ k → k < b → P (dataAt d k)) : ∀ k, a ≤ k → k < b → P (dataAt d' k) := by
  intro k ha hb
  obtain ⟨k', ha', hb', e⟩ := h.within k ha hb
  rw [e]
  exact hP k' ha' hb'

theorem Sandwich.le_refl {less : α → α → Bool} {le : α → α → Prop} (S : Sandwich less le)
    (x : α) : le x x := by
  cases h : less x x with
  | true => exact S.of_less x x h
  | false => exact S.of_not_less x x h

/-! ## Orderer: insertion sort -/

/-- The inner loop of the insertion sort: with everything in `[a, e)` in order
apart from the element at `j`, which is not after any later one, the loop
leaves `[a, e)` in order. -/
theorem insertionInner_spec {less : α → α → Bool} {le : α → α → Prop} (S : Sandwich less le)
    (a e : Nat) :
    ∀ (j : Nat) (d : List α), a ≤ j → j < e → e ≤ d.length →
      (∀ u v, a ≤ u → u < v → v < e → u ≠ j → v ≠ j → le (dataAt d u) (dataAt d v)) →
      (∀ v, j < v → v < e → le (dataAt d j) (dataAt d v)) →
      Rearr a e d (insertionInner less a j d) ∧ SortedSeg le (insertionInner less a j d) a e := by
  intro j
  induction j with
  | zero =>
    intro d ha _ _ h1 h2
    refine ⟨Rearr.refl _ _ _, ?_⟩
    intro u v hu huv hv
    by_cases h0 : u = 0
    · subst h0; exact h2 v huv hv
    · exact h1 u v hu huv hv h0 (by omega)
  | succ j ih =>
    intro d ha he hlen h1 h2
    unfold insertionInner
    by_cases hc : (decide (j + 1 > a) && lessAt less d (j + 1) j) = true
    · rw [if_pos hc]
      simp only [Bool.and_eq_true, decide_eq_true_eq] at hc
      obtain ⟨hja, hless⟩ := hc
      have hle : le (dataAt d (j + 1)) (dataAt d j) := S.of_less _ _ hless
      have hi1 : j + 1 < d.length := by omega
      have hi0 : j < d.length := by omega
      have hsw : ∀ k, dataAt (swapAt d (j + 1) j) k =
          if k = j then dataAt d (j + 1) else if k = j + 1 then dataAt d j else dataAt d k :=
        fun k => dataAt_swapAt d (j + 1) j k hi1 hi0
      have hR : Rearr a e d (swapAt d (j + 1) j) :=
        Rearr.swap d (by omega) he (by omega) (by omega) hlen
      have := ih (swapAt d (j + 1) j) (by omega) (by omega)
        (by rw [length_swapAt]; exact hlen)
        (by
          intro u v hu huv hv huj hvj
          rw [hsw u, hsw v, if_neg huj, if_neg hvj]
          by_cases hu1 : u = j + 1
          · rw [if_pos hu1, if_neg (by omega)]
            exact h1 j v (by omega) (by omega) hv (by omega) (by omega)
          · rw [if_neg hu1]
            by_cases hv1 : v = j + 1
            · rw [if_pos hv1]
              exact h1 u j hu (by omega) (by omega) hu1 (by omega)
            · rw [if_neg hv1]
              exact h1 u v hu huv hv hu1 hv1)
        (by
          intro v hjv hv
          rw [hsw j, hsw v, if_pos rfl, if_neg (by omega)]
          by_cases hv1 : v = j + 1
          · rw [if_pos hv1]; exact hle
          · rw [if_neg hv1]; exact h2 v (by omega) hv)
      exact ⟨hR.trans this.1, this.2⟩
    · rw [if_neg hc]
      refine ⟨Rearr.refl _ _ _, ?_⟩
      have hc' : j + 1 ≤ a ∨ lessAt less d (j + 1) j = false := by
        by_cases hja : j + 1 > a
        · right
          simpa [hja] using hc
        · left; omega
      intro u v hu huv hv
      by_cases hu1 : u = j + 1
      · subst hu1; exact h2 v huv hv
      · by_cases hv1 : v = j + 1
        · subst hv1
          rcases hc' with hja | hnl
          · omega
          · have hle : le (dataAt d j) (dataAt d (j + 1)) := S.of_not_less _ _ hnl
            by_cases huj : u = j
            · subst huj; exact hle
            · exact S.trans _ _ _ (h1 u j hu (by omega) (by omega) hu1 (by omega)) hle
        · exact h1 u v hu huv hv hu1 hv1

/-- The outer loop of the insertion sort, entered at `i` with `[a, i)` in order. -/
theorem insertionOuter_spec {less : α → α → Bool} {le : α → α → Prop} (S : Sandwich less le)
    (a b : Nat) :
    ∀ (k i : Nat) (d : List α), b ≤ d.length → a < i → b - i ≤ k → SortedSeg le d a i →
      Rearr a b d (insertionOuter less a b k i d) ∧
        SortedSeg le (insertionOuter less a b k i d) a b := by
  intro k
  induction k with
  | zero =>
    intro i d _ _ hk hs
    refine ⟨Rearr.refl _ _ _, ?_⟩
    intro u v hu huv hv
    exact hs u v hu huv (by omega)
  | succ k ih =>
    intro i d hlen hai hk hs
    unfold insertionOuter
    by_cases hib : i < b
    · rw [if_pos hib]
      have hin := insertionInner_spec S a (i + 1) i d (by omega) (by omega) (by omega)
        (fun u v hu huv hv hui hvi => hs u v hu huv (by omega))
        (fun v hiv hv => by omega)
      have := ih (i + 1) (insertionInner less a i d) (by rw [hin.1.len]; exact hlen) (by omega)
        (by omega) hin.2
      exact ⟨(hin.1.mono (Nat.le_refl _) (by omega)).trans this.1, this.2⟩
    · rw [if_neg hib]
      refine ⟨Rearr.refl _ _ _, ?_⟩
      intro u v hu huv hv
      exact hs u v hu huv (by omega)

/-- `insertionSort_func` leaves `[a, b)` in order and moves nothing else. -/
theorem insertionSort_func_spec {less : α → α → Bool} {le : α → α → Prop}
    (S : Sandwich less le) (d : List α) (a b : Nat) (hlen : b ≤ d.length) :
    Rearr a b d (insertionSort_func less d a b) ∧
      SortedSeg le (insertionSort_func less d a b) a b := by
  unfold insertionSort_func
  exact insertionOuter_spec S a b _ (a + 1) d hlen (by omega) (by omega)
    (fun u v hu huv hv => by omega)

/-! ## Orderer: heap sort -/

/-- The loop of `siftDown_func` from `r`: when the heap property holds from `s`
on apart from the node `r`, and the children of `r` are not after the parent
of `r`, the loop restores the heap property from `s` on. -/
theorem siftDownLoop_spec {less : α → α → Bool} {le : α → α → Prop} (S : Sandwich less le)
    (hi first s : Nat) :
    ∀ (k r : Nat) (d : List α), first + hi ≤ d.length → hi - r ≤ k → s ≤ r →
      (∀ i c, s ≤ i → i ≠ r → (c = 2 * i + 1 ∨ c = 2 * i + 2) → c < hi →
        le (dataAt d (first + c)) (dataAt d (first + i))) →
      (∀ q c, s ≤ q → (r = 2 * q + 1 ∨ r = 2 * q + 2) → (c = 2 * r + 1 ∨ c = 2 * r + 2) →
        c < hi → le (dataAt d (first + c)) (dataAt d (first + q))) →
      Rearr first (first + hi) d (siftDownLoop less hi first k r d) ∧
        HeapFrom le (siftDownLoop less hi first k r d) first hi s := by
  intro k
  induction k with
  | zero =>
    intro r d _ hk _ h1 _
    refine ⟨Rearr.refl _ _ _, ?_⟩
    intro i c hsi hc hch
    exact h1 i c hsi (by omega) hc hch
  | succ k ih =>
    intro r d hlen hk hsr h1 h2
    unfold siftDownLoop
    simp only
    by_cases hch : 2 * r + 1 ≥ hi
    · rw [if_pos hch]
      refine ⟨Rearr.refl _ _ _, ?_⟩
      intro i c hsi hc hchi
      exact h1 i c hsi (by omega) hc hchi
    · rw [if_neg hch]
      -- the chosen child and the facts about it
      obtain ⟨child, hchild, hdef, hother⟩ :
          ∃ child, (child = 2 * r + 1 ∨ child = 2 * r + 2) ∧
            (if (decide (2 * r + 1 + 1 < hi) &&
                lessAt less d (first + (2 * r + 1)) (first + (2 * r + 1) + 1)) = true
              then 2 * r + 1 + 1 else 2 * r + 1) = child ∧ child < hi ∧
            ∀ c, (c = 2 * r + 1 ∨ c = 2 * r + 2) → c < hi →
              le (dataAt d (first + c)) (dataAt d (first + child)) := by
        by_cases hsel : (decide (2 * r + 1 + 1 < hi) &&
            lessAt less d (first + (2 * r + 1)) (first + (2 * r + 1) + 1)) = true
        · refine ⟨2 * r + 2, Or.inr rfl, by rw [if_pos hsel], ?_, ?_⟩
          · simp only [Bool.and_eq_true, decide_eq_true_eq] at hsel; omega
          · simp only [Bool.and_eq_true, decide_eq_true_eq] at hsel
            intro c hc _
            rcases hc with hc | hc
            · subst hc
              exact S.of_less _ _ hsel.2
            · subst hc; exact S.le_refl _
        · refine ⟨2 * r + 1, Or.inl rfl, by rw [if_neg hsel], by omega, ?_⟩
          intro c hc hchi
          rcases hc with hc | hc
          · subst hc; exact S.le_refl _
          · subst hc
            have : lessAt less d (first + (2 * r + 1)) (first + (2 * r + 1) + 1) = false := by
              have h22 : 2 * r + 1 + 1 < hi := by omega
              simpa [h22] using hsel
            exact S.of_not_less _ _ this
      rw [hdef]
      obtain ⟨hchildhi, hbest⟩ := hother
      by_cases hnl : (!lessAt less d (first + r) (first + child)) = true
      · rw [if_pos hnl]
        refine ⟨Rearr.refl _ _ _, ?_⟩
        have hle : le (dataAt d (first + child)) (dataAt d (first + r)) := by
          apply S.of_not_less
          simpa [lessAt] using hnl
        intro i c hsi hc hchi
        by_cases hir : i = r
        · subst hir
          exact S.trans _ _ _ (hbest c hc hchi) hle
        · exact h1 i c hsi hir hc hchi
      · rw [if_neg hnl]
        have hless : less (dataAt d (first + r)) (dataAt d (first + child)) = true := by
          simpa [lessAt] using hnl
        have hle : le (dataAt d (first + r)) (dataAt d (first + child)) := S.of_less _ _ hless
        have hi1 : first + r < d.length := by omega
        have hi2 : first + child < d.length := by omega
        have hsw : ∀ k, dataAt (swapAt d (first + r) (first + child)) k =
            if k = first + child then dataAt d (first + r)
            else if k = first + r then dataAt d (first + child) else dataAt d k :=
          fun k => dataAt_swapAt d (first + r) (first + child) k hi1 hi2
        have er : dataAt (swapAt d (first + r) (first + child)) (first + r) =
            dataAt d (first + child) := by
          rw [hsw, if_neg (by omega), if_pos rfl]
        have ec : dataAt (swapAt d (first + r) (first + child)) (first + child) =
            dataAt d (first + r) := by
          rw [hsw, if_pos rfl]
        have eo : ∀ k, k ≠ r → k ≠ child →
            dataAt (swapAt d (first + r) (first + child)) (first + k) = dataAt d (first + k) := by
          intro k h1 h2
          rw [hsw, if_neg (by omega), if_neg (by omega)]
        have hR : Rearr first (first + hi) d (swapAt d (first + r) (first + child)) :=
          Rearr.swap d (by omega) (by omega) (by omega) (by omega) hlen
        have := ih child (swapAt d (first + r) (first + child))
          (by rw [length_swapAt]; exact hlen) (by omega) (by omega)
          (by
            intro i c hsi hic hc hchi
            by_cases hir : i = r
            · subst hir
              rw [er]
              by_cases hcc : c = child
              · subst hcc; rw [ec]; exact hle
              · rw [eo c (by omega) hcc]
                exact hbest c hc hchi
            · rw [eo i hir hic]
              by_cases hcr : c = r
              · subst hcr
                rw [er]
                exact h2 i child hsi hc hchild hchildhi
              · rw [eo c hcr (by omega)]
                exact h1 i c hsi hir hc hchi)
          (by
            intro q c hsq hq hc hchi
            have hqr : q = r := by omega
            subst hqr
            rw [er, eo c (by omega) (by omega)]
            exact h1 child c (by omega) (by omega) hc hchi)
        exact ⟨hR.trans this.1, this.2⟩

/-- `siftDown_func` at a node `lo` whose descendants already satisfy the heap
property. -/
theorem siftDown_func_spec {less : α → α → Bool} {le : α → α → Prop} (S : Sandwich less le)
    (d : List α) (lo hi first : Nat) (hlen : first + hi ≤ d.length)
    (h : HeapFrom le d first hi (lo + 1)) :
    Rearr first (first + hi) d (siftDown_func less d lo hi first) ∧
      HeapFrom le (siftDown_func less d lo hi first) first hi lo := by
  unfold siftDown_func
  exact siftDownLoop_spec S hi first lo (hi - lo) lo d hlen (Nat.le_refl _) (Nat.le_refl _)
    (fun i c hsi hne hc hchi => h i c (by omega) hc hchi)
    (fun q c hsq hq _ _ => by omega)

/-- The first loop of `heapSort_func` builds a heap. -/
theorem heapBuild_spec {less : α → α → Bool} {le : α → α → Prop} (S : Sandwich less le)
    (hi first : Nat) :
    ∀ (n : Nat) (d : List α), first + hi ≤ d.length → HeapFrom le d first hi n →
      Rearr first (first + hi) d (heapBuild less hi first n d) ∧
        HeapFrom le (heapBuild less hi first n d) first hi 0 := by
  intro n
  induction n with
  | zero => intro d _ h; exact ⟨Rearr.refl _ _ _, h⟩
  | succ n ih =>
    intro d hlen h
    unfold heapBuild
    have h1 := siftDown_func_spec S d n hi first hlen h
    have h2 := ih (siftDown_func less d n hi first) (by rw [h1.1.len]; exact hlen) h1.2
    exact ⟨h1.1.trans h2.1, h2.2⟩

/-- In a heap no element stands after the root. -/
theorem heap_root_max {less : α → α → Bool} {le : α → α → Prop} (S : Sandwich less le)
    (d : List α) (first hi : Nat) (h : HeapFrom le d first hi 0) :
    ∀ u, u < hi → le (dataAt d (first + u)) (dataAt d first) := by
  intro u
  induction u using Nat.strong_induction_on with
  | _ u ih =>
    intro hu
    by_cases h0 : u = 0
    · subst h0; exact S.le_refl _
    · have hp : (u - 1) / 2 < u := by omega
      have hc : u = 2 * ((u - 1) / 2) + 1 ∨ u = 2 * ((u - 1) / 2) + 2 := by omega
      exact S.trans _ _ _ (h ((u - 1) / 2) u (Nat.zero_le _) hc hu) (ih _ hp (by omega))

/-- The second loop of `heapSort_func`: with a heap at `first + [0, n)`, the
rest `first + [n, hi)` in order and not before any heap element, the loop
leaves `first + [0, hi)` in order. -/
theorem heapPop_spec {less : α → α → Bool} {le : α → α → Prop} (S : Sandwich less le)
    (hi first : Nat) :
    ∀ (n : Nat) (d : List α), first + hi ≤ d.length → n ≤ hi →
      HeapFrom le d first n 0 →
      SortedSeg le d (first + n) (first + hi) →
      (∀ u v, u < n → n ≤ v → v < hi → le (dataAt d (first + u)) (dataAt d (first + v))) →
      Rearr first (first + hi) d (heapPop less 0 first n d) ∧
        SortedSeg le (heapPop less 0 first n d) first (first + hi) := by
  intro n
  induction n with
  | zero =>
    intro d _ _ _ hs _
    exact ⟨Rearr.refl _ _ _, by simpa using hs⟩
  | succ i ih =>
    intro d hlen hn hheap hs hcross
    unfold heapPop
    have hi0 : first < d.length := by omega
    have hi1 : first + i < d.length := by omega
    have hsw : ∀ k, dataAt (swapAt d first (first + i)) k =
        if k = first + i then dataAt d first
        else if k = first then dataAt d (first + i) else dataAt d k :=
      fun k => dataAt_swapAt d first (first + i) k hi0 hi1
    have hR1 : Rearr first (first + hi) d (swapAt d first (first + i)) :=
      Rearr.swap d (Nat.le_refl _) (by omega) (by omega) (by omega) hlen
    have hmax := heap_root_max S d first (i + 1) hheap
    have hsift := siftDown_func_spec S (swapAt d first (first + i)) 0 i first
      (by rw [length_swapAt]; omega)
      (by
        intro j c hj hc hci
        rw [hsw (first + c), hsw (first + j), if_neg (by omega), if_neg (by omega),
          if_neg (by omega), if_neg (by omega)]
        exact hheap j c (Nat.zero_le _) hc (by omega))
    -- every element of the new heap comes from the old heap
    have hfrom : ∀ u, u < i → ∃ u', u' < i + 1 ∧
        dataAt (siftDown_func less (swapAt d first (first + i)) 0 i first) (first + u) =
          dataAt d (first + u') := by
      intro u hu
      obtain ⟨k', hk1, hk2, e⟩ := hsift.1.within (first + u) (by omega) (by omega)
      rw [e, hsw k', if_neg (by omega)]
      by_cases hk0 : k' = first
      · exact ⟨i, by omega, by rw [if_pos hk0]⟩
      · exact ⟨k' - first, by omega, by rw [if_neg hk0]; congr 1; omega⟩
    have hout : ∀ v, i ≤ v →
        dataAt (siftDown_func less (swapAt d first (first + i)) 0 i first) (first + v) =
          if v = i then dataAt d first else dataAt d (first + v) := by
      intro v hv
      rw [hsift.1.out (first + v) (by omega), hsw]
      by_cases hvi : v = i
      · subst hvi; simp
      · rw [if_neg (by omega), if_neg (by omega), if_neg hvi]
    have hrec := ih (siftDown_func less (swapAt d first (first + i)) 0 i first)
      (by rw [hsift.1.len, length_swapAt]; exact hlen) (by omega) hsift.2
      (by
        intro u v hu huv hv
        obtain ⟨u0, rfl⟩ : ∃ u0, u = first + u0 := ⟨u - first, by omega⟩
        obtain ⟨v0, rfl⟩ : ∃ v0, v = first + v0 := ⟨v - first, by omega⟩
        rw [hout u0 (by omega), hout v0 (by omega), if_neg (show ¬ v0 = i by omega)]
        by_cases hui : u0 = i
        · rw [if_pos hui]
          have := hcross 0 v0 (by omega) (by omega) (by omega)
          simpa using this
        · rw [if_neg hui]
          exact hs (first + u0) (first + v0) (by omega) (by omega) (by omega))
      (by
        intro u v hu hiv hv
        obtain ⟨u', hu', e⟩ := hfrom u hu
        rw [e, hout v hiv]
        by_cases hvi : v = i
        · rw [if_pos hvi]
          exact hmax u' hu'
        · rw [if_neg hvi]
          exact hcross u' v hu' (by omega) hv)
    exact ⟨(hR1.trans (hsift.1.mono (Nat.le_refl _) (by omega))).trans hrec.1, hrec.2⟩

/-- `heapSort_func` leaves `[a, b)` in order and moves nothing else. -/
theorem heapSort_func_spec {less : α → α → Bool} {le : α → α → Prop} (S : Sandwich less le)
    (d : List α) (a b : Nat) (hab : a ≤ b) (hlen : b ≤ d.length) :
    Rearr a b d (heapSort_func less d a b) ∧ SortedSeg le (heapSort_func less d a b) a b := by
  unfold heapSort_func
  simp only
  have hb : a + (b - a) = b := by omega
  have h1 := heapBuild_spec S (b - a) a ((b - a - 1) / 2 + 1) d (by omega)
    (fun i c hi hc hchi => by omega)
  have h2 := heapPop_spec S (b - a) a (b - a)
    (heapBuild less (b - a) a ((b - a - 1) / 2 + 1) d) (by rw [h1.1.len]; omega)
    (Nat.le_refl _) h1.2 (fun u v hu huv hv => by omega) (fun u v hu hv hvh => by omega)
  rw [hb] at h1 h2
  exact ⟨h1.1.trans h2.1, h2.2⟩

/-! ## Orderer: the partition of quicksort -/

/-- `medianOfThree_func` exchanges elements among its three positions. -/
theorem medianOfThree_func_rearr (less : α → α → Bool) (d : List α) (a b m1 m0 m2 : Nat)
    (h1 : a ≤ m1 ∧ m1 < b) (h0 : a ≤ m0 ∧ m0 < b) (h2 : a ≤ m2 ∧ m2 < b) (hlen : b ≤ d.length) :
    Rearr a b d (medianOfThree_func less d m1 m0 m2) := by
  unfold medianOfThree_func
  simp only
  have hA : Rearr a b d (if lessAt less d m1 m0 = true then swapAt d m1 m0 else d) := by
    split
    · exact Rearr.swap d h1.1 h1.2 h0.1 h0.2 hlen
    · exact Rearr.refl _ _ _
  generalize (if lessAt less d m1 m0 = true then swapAt d m1 m0 else d) = d1 at hA ⊢
  have hlen1 : b ≤ d1.length := by rw [hA.len]; exact hlen
  split
  · have hB : Rearr a b d1 (swapAt d1 m2 m1) := Rearr.swap d1 h2.1 h2.2 h1.1 h1.2 hlen1
    split
    · exact hA.trans (hB.trans (Rearr.swap _ h1.1 h1.2 h0.1 h0.2 (by rw [hB.len]; exact hlen1)))
    · exact hA.trans hB
  · exact hA

/-- After `medianOfThree_func` the element at `m1` is not after the one at `m2`. -/
theorem medianOfThree_func_le {less : α → α → Bool} {le : α → α → Prop} (S : Sandwich less le)
    (d : List α) (m1 m0 m2 : Nat) (h1 : m1 < d.length) (h0 : m0 < d.length)
    (h2 : m2 < d.length) (h10 : m1 ≠ m0) (h12 : m1 ≠ m2) (h02 : m0 ≠ m2) :
    le (dataAt (medianOfThree_func less d m1 m0 m2) m1)
      (dataAt (medianOfThree_func less d m1 m0 m2) m2) := by
  unfold medianOfThree_func
  simp only
  have hA : ∃ d1 : List α, (if lessAt less d m1 m0 = true then swapAt d m1 m0 else d) = d1 ∧
      d1.length = d.length ∧ le (dataAt d1 m0) (dataAt d1 m1) := by
    by_cases h : lessAt less d m1 m0 = true
    · refine ⟨swapAt d m1 m0, by rw [if_pos h], length_swapAt _ _ _, ?_⟩
      rw [dataAt_swapAt d m1 m0 m0 h1 h0, dataAt_swapAt d m1 m0 m1 h1 h0, if_pos rfl,
        if_neg h10, if_pos rfl]
      exact S.of_less _ _ h
    · refine ⟨d, by rw [if_neg h], rfl, ?_⟩
      exact S.of_not_less _ _ (by simpa [lessAt] using h)
  obtain ⟨d1, e1, hl1, hle1⟩ := hA
  rw [e1]
  have g1 : m1 < d1.length := by omega
  have g0 : m0 < d1.length := by omega
  have g2 : m2 < d1.length := by omega
  by_cases hB : lessAt less d1 m2 m1 = true
  · rw [if_pos hB]
    have e21 : dataAt (swapAt d1 m2 m1) m1 = dataAt d1 m2 := by
      rw [dataAt_swapAt d1 m2 m1 m1 g2 g1, if_pos rfl]
    have e22 : dataAt (swapAt d1 m2 m1) m2 = dataAt d1 m1 := by
      rw [dataAt_swapAt d1 m2 m1 m2 g2 g1, if_neg (fun e => h12 e.symm), if_pos rfl]
    have e20 : dataAt (swapAt d1 m2 m1) m0 = dataAt d1 m0 := by
      rw [dataAt_swapAt d1 m2 m1 m0 g2 g1, if_neg (fun e => h10 e.symm), if_neg h02]
    have gl : (swapAt d1 m2 m1).length = d1.length := length_swapAt _ _ _
    by_cases hC : lessAt less (swapAt d1 m2 m1) m1 m0 = true
    · rw [if_pos hC]
      rw [dataAt_swapAt _ m1 m0 m1 (by omega) (by omega),
        dataAt_swapAt _ m1 m0 m2 (by omega) (by omega), if_neg h10, if_pos rfl,
        if_neg (fun e => h02 e.symm), if_neg (fun e => h12 e.symm), e20, e22]
      exact hle1
    · rw [if_neg hC, e21, e22]
      exact S.of_less _ _ hB
  · rw [if_neg hB]
    exact S.of_not_less _ _ (by simpa [lessAt] using hB)

theorem scanLessPivot_spec (less : α → α → Bool) (d : List α) (pivot c : Nat) :
    ∀ (k a : Nat), c - a ≤ k →
      a ≤ scanLessPivot less d pivot c k a ∧
      (a ≤ c → scanLessPivot less d pivot c k a ≤ c) ∧
      (∀ i, a ≤ i → i < scanLessPivot less d pivot c k a →
        less (dataAt d i) (dataAt d pivot) = true) ∧
      (scanLessPivot less d pivot c k a < c →
        less (dataAt d (scanLessPivot less d pivot c k a)) (dataAt d pivot) = false) := by
  intro k
  induction k with
  | zero =>
    intro a hk
    unfold scanLessPivot
    exact ⟨Nat.le_refl _, fun h => h, fun i h1 h2 => by omega, fun h => by omega⟩
  | succ k ih =>
    intro a hk
    unfold scanLessPivot
    by_cases hc : (decide (a < c) && lessAt less d a pivot) = true
    · rw [if_pos hc]
      simp only [Bool.and_eq_true, decide_eq_true_eq] at hc
      obtain ⟨g1, g2, g3, g4⟩ := ih (a + 1) (by omega)
      refine ⟨by omega, fun _ => g2 (by omega), fun i hi1 hi2 => ?_, g4⟩
      by_cases hia : i = a
      · subst hia; exact hc.2
      · exact g3 i (by omega) hi2
    · rw [if_neg hc]
      refine ⟨Nat.le_refl _, fun h => h, fun i h1 h2 => by omega, fun h => ?_⟩
      simpa [h, lessAt] using hc

theorem scanNotGreater_spec (less : α → α → Bool) (d : List α) (pivot c : Nat) :
    ∀ (k b : Nat), c - b ≤ k →
      b ≤ scanNotGreater less d pivot c k b ∧
      (b ≤ c → scanNotGreater less d pivot c k b ≤ c) ∧
      (∀ i, b ≤ i → i < scanNotGreater less d pivot c k b →
        less (dataAt d pivot) (dataAt d i) = false) ∧
      (scanNotGreater less d pivot c k b < c →
        less (dataAt d pivot) (dataAt d (scanNotGreater less d pivot c k b)) = true) := by
  intro k
  induction k with
  | zero =>
    intro b hk
    unfold scanNotGreater
    exact ⟨Nat.le_refl _, fun h => h, fun i h1 h2 => by omega, fun h => by omega⟩
  | succ k ih =>
    intro b hk
    unfold scanNotGreater
    by_cases hc : (decide (b < c) && !lessAt less d pivot b) = true
    · rw [if_pos hc]
      simp only [Bool.and_eq_true, decide_eq_true_eq, Bool.not_eq_true'] at hc
      obtain ⟨g1, g2, g3, g4⟩ := ih (b + 1) (by omega)
      refine ⟨by omega, fun _ => g2 (by omega), fun i hi1 hi2 => ?_, g4⟩
      by_cases hib : i = b
      · subst hib; exact hc.2
      · exact g3 i (by omega) hi2
    · rw [if_neg hc]
      refine ⟨Nat.le_refl _, fun h => h, fun i h1 h2 => by omega, fun h => ?_⟩
      simpa [h, lessAt] using hc

theorem scanGreater_spec (less : α → α → Bool) (d : List α) (pivot b : Nat) :
    ∀ c : Nat,
      scanGreater less d pivot b c ≤ c ∧
      (b ≤ c → b ≤ scanGreater less d pivot b c) ∧
      (∀ i, scanGreater less d pivot b c ≤ i → i < c →
        less (dataAt d pivot) (dataAt d i) = true) ∧
      (b < scanGreater less d pivot b c →
        less (dataAt d pivot) (dataAt d (scanGreater less d pivot b c - 1)) = false) := by
  intro c
  induction c with
  | zero =>
    unfold scanGreater
    exact ⟨Nat.le_refl _, fun h => h, fun i h1 h2 => by omega, fun h => by omega⟩
  | succ c ih =>
    unfold scanGreater
    by_cases hc : (decide (b < c + 1) && lessAt less d pivot c) = true
    · rw [if_pos hc]
      simp only [Bool.and_eq_true, decide_eq_true_eq] at hc
      obtain ⟨g1, g2, g3, g4⟩ := ih
      refine ⟨by omega, fun _ => g2 (by omega), fun i hi1 hi2 => ?_, g4⟩
      by_cases hic : i = c
      · subst hic; exact hc.2
      · exact g3 i hi1 (by omega)
    · rw [if_neg hc]
      refine ⟨Nat.le_refl _, fun h => h, fun i h1 h2 => by omega, fun h => ?_⟩
      simpa [h, lessAt] using hc

theorem scanEqualDown_spec (less : α → α → Bool) (d : List α) (pivot a : Nat) :
    ∀ b : Nat,
      scanEqualDown less d pivot a b ≤ b ∧
      (a ≤ b → a ≤ scanEqualDown less d pivot a b) ∧
      (∀ i, scanEqualDown less d pivot a b ≤ i → i < b →
        less (dataAt d i) (dataAt d pivot) = false) ∧
      (a < scanEqualDown less d pivot a b →
        less (dataAt d (scanEqualDown less d pivot a b - 1)) (dataAt d pivot) = true) := by
  intro b
  induction b with
  | zero =>
    unfold scanEqualDown
    exact ⟨Nat.le_refl _, fun h => h, fun i h1 h2 => by omega, fun h => by omega⟩
  | succ b ih =>
    unfold scanEqualDown
    by_cases hc : (decide (a < b + 1) && !lessAt less d b pivot) = true
    · rw [if_pos hc]
      simp only [Bool.and_eq_true, decide_eq_true_eq, Bool.not_eq_true'] at hc
      obtain ⟨g1, g2, g3, g4⟩ := ih
      refine ⟨by omega, fun _ => g2 (by omega), fun i hi1 hi2 => ?_, g4⟩
      by_cases hib : i = b
      · subst hib; exact hc.2
      · exact g3 i hi1 (by omega)
    · rw [if_neg hc]
      refine ⟨Nat.le_refl _, fun h => h, fun i h1 h2 => by omega, fun h => ?_⟩
      simpa [h, lessAt] using hc

/-- The partition loop of `doPivot_func`: it ends with `b = c`, everything in
`(lo, b)` not after the pivot and everything in `[c, hi)` not before it. -/
theorem partitionLoop_spec {less : α → α → Bool} {le : α → α → Prop} (S : Sandwich less le)
    (lo hi : Nat) (p : α) :
    ∀ (k : Nat) (d : List α) (b c : Nat), lo < b → b ≤ c → c < hi → hi ≤ d.length →
      c - b < k → dataAt d lo = p →
      (∀ i, lo < i → i < b → le (dataAt d i) p) →
      (∀ i, c ≤ i → i < hi → le p (dataAt d i)) →
      Rearr (lo + 1) (hi - 1) d (partitionLoop less lo k d b c).1 ∧
        (partitionLoop less lo k d b c).2.1 = (partitionLoop less lo k d b c).2.2 ∧
        lo < (partitionLoop less lo k d b c).2.1 ∧
        (partitionLoop less lo k d b c).2.2 < hi ∧
        (∀ i, lo < i → i < (partitionLoop less lo k d b c).2.1 →
          le (dataAt (partitionLoop less lo k d b c).1 i) p) ∧
        (∀ i, (partitionLoop less lo k d b c).2.2 ≤ i → i < hi →
          le p (dataAt (partitionLoop less lo k d b c).1 i)) := by
  intro k
  induction k with
  | zero => intro d b c _ _ _ _ hk; omega
  | succ k ih =>
    intro d b c hlob hbc hchi hlen hk hp hA hC
    unfold partitionLoop
    simp only
    obtain ⟨b1, c1, eb, ec, hb1, hb1c, hAb, hexb, hc1, hbc1, hCc, hexc⟩ :
        ∃ b1 c1, scanNotGreater less d lo c (c - b) b = b1 ∧
          scanGreater less d lo b1 c = c1 ∧ b ≤ b1 ∧ b1 ≤ c ∧
          (∀ i, b ≤ i → i < b1 → less (dataAt d lo) (dataAt d i) = false) ∧
          (b1 < c → less (dataAt d lo) (dataAt d b1) = true) ∧
          c1 ≤ c ∧ b1 ≤ c1 ∧
          (∀ i, c1 ≤ i → i < c → less (dataAt d lo) (dataAt d i) = true) ∧
          (b1 < c1 → less (dataAt d lo) (dataAt d (c1 - 1)) = false) := by
      obtain ⟨g1, g2, g3, g4⟩ := scanNotGreater_spec less d lo c (c - b) b (Nat.le_refl _)
      obtain ⟨f1, f2, f3, f4⟩ :=
        scanGreater_spec less d lo (scanNotGreater less d lo c (c - b) b) c
      exact ⟨_, _, rfl, rfl, g1, g2 hbc, g3, g4, f1, f2 (g2 hbc), f3, f4⟩
    rw [eb, ec]
    have hA1 : ∀ i, lo < i → i < b1 → le (dataAt d i) p := by
      intro i h1 h2
      by_cases hib : i < b
      · exact hA i h1 hib
      · have := hAb i (by omega) h2
        rw [hp] at this
        exact S.of_not_less _ _ this
    have hC1 : ∀ i, c1 ≤ i → i < hi → le p (dataAt d i) := by
      intro i h1 h2
      by_cases hic : c ≤ i
      · exact hC i hic h2
      · have := hCc i h1 (by omega)
        rw [hp] at this
        exact S.of_less _ _ this
    by_cases hge : b1 ≥ c1
    · rw [if_pos hge]
      exact ⟨Rearr.refl _ _ _, by simp only; omega, by simp only; omega, by simp only; omega,
        fun i h1 h2 => hA1 i h1 h2, fun i h1 h2 => hC1 i h1 h2⟩
    · rw [if_neg hge]
      have hlt : b1 < c1 := by omega
      have hgb : less p (dataAt d b1) = true := by rw [← hp]; exact hexb (by omega)
      have hgc : less p (dataAt d (c1 - 1)) = false := by rw [← hp]; exact hexc hlt
      have hne : b1 ≠ c1 - 1 := by
        intro e
        rw [e, hgc] at hgb
        exact Bool.false_ne_true hgb
      have hi1 : b1 < d.length := by omega
      have hi2 : c1 - 1 < d.length := by omega
      have hsw : ∀ j, dataAt (swapAt d b1 (c1 - 1)) j =
          if j = c1 - 1 then dataAt d b1 else if j = b1 then dataAt d (c1 - 1) else dataAt d j :=
        fun j => dataAt_swapAt d b1 (c1 - 1) j hi1 hi2
      have hR : Rearr (lo + 1) (hi - 1) d (swapAt d b1 (c1 - 1)) :=
        Rearr.swap d (by omega) (by omega) (by omega) (by omega) (by omega)
      have := ih (swapAt d b1 (c1 - 1)) (b1 + 1) (c1 - 1) (by omega) (by omega) (by omega)
        (by rw [length_swapAt]; exact hlen) (by omega)
        (by rw [hsw, if_neg (by omega), if_neg (by omega)]; exact hp)
        (by
          intro i h1 h2
          rw [hsw, if_neg (by omega)]
          by_cases hib : i = b1
          · rw [if_pos hib]
            exact S.of_not_less _ _ hgc
          · rw [if_neg hib]
            exact hA1 i h1 (by omega))
        (by
          intro i h1 h2
          rw [hsw]
          by_cases hic : i = c1 - 1
          · rw [if_pos hic]
            exact S.of_less _ _ hgb
          · rw [if_neg hic, if_neg (by omega)]
            exact hC1 i (by omega) h2)
      exact ⟨hR.trans this.1, this.2⟩

/-- The duplicate-protection loop of `doPivot_func`: it keeps `(lo, b)` not
after the pivot and `[b, c)` equivalent to the pivot. -/
theorem protectLoop_spec {less : α → α → Bool} {le : α → α → Prop} (S : Sandwich less le)
    (lo c : Nat) (p : α) :
    ∀ (k : Nat) (d : List α) (a b : Nat), lo < a → lo < b → b ≤ c → c ≤ d.length →
      b - a < k → dataAt d lo = p →
      (∀ i, lo < i → i < b → le (dataAt d i) p) →
      (∀ i, b ≤ i → i < c → le (dataAt d i) p ∧ le p (dataAt d i)) →
      Rearr (lo + 1) c d (protectLoop less lo k d a b).1 ∧
        lo < (protectLoop less lo k d a b).2.2 ∧
        (protectLoop less lo k d a b).2.2 ≤ c ∧
        (∀ i, lo < i → i < (protectLoop less lo k d a b).2.2 →
          le (dataAt (protectLoop less lo k d a b).1 i) p) ∧
        (∀ i, (protectLoop less lo k d a b).2.2 ≤ i → i < c →
          le (dataAt (protectLoop less lo k d a b).1 i) p ∧
            le p (dataAt (protectLoop less lo k d a b).1 i)) := by
  intro k
  induction k with
  | zero => intro d a b _ _ _ _ hk; omega
  | succ k ih =>
    intro d a b hloa hlob hbc hlen hk hp hA hM
    unfold protectLoop
    simp only
    obtain ⟨b1, a1, eb, ea, hb1, hab1, hMb, hexb, ha1, hexa⟩ :
        ∃ b1 a1, scanEqualDown less d lo a b = b1 ∧
          scanLessPivot less d lo b1 (b1 - a) a = a1 ∧ b1 ≤ b ∧ (a ≤ b → a ≤ b1) ∧
          (∀ i, b1 ≤ i → i < b → less (dataAt d i) (dataAt d lo) = false) ∧
          (a < b1 → less (dataAt d (b1 - 1)) (dataAt d lo) = true) ∧
          a ≤ a1 ∧
          (a1 < b1 → less (dataAt d a1) (dataAt d lo) = false) := by
      obtain ⟨g1, g2, g3, g4⟩ := scanEqualDown_spec less d lo a b
      obtain ⟨f1, f2, f3, f4⟩ := scanLessPivot_spec less d lo (scanEqualDown less d lo a b)
        (scanEqualDown less d lo a b - a) a (Nat.le_refl _)
      exact ⟨_, _, rfl, rfl, g1, g2, g3, g4, f1, f4⟩
    rw [eb, ea]
    have hlob1 : lo < b1 := by
      by_cases h : a ≤ b
      · have := hab1 h; omega
      · have : b1 = b := by
          rw [← eb]
          cases b with
          | zero => rfl
          | succ b' =>
            unfold scanEqualDown
            have hnot : ¬ a < b' + 1 := by omega
            simp [hnot]
        omega
    have hM1 : ∀ i, b1 ≤ i → i < c → le (dataAt d i) p ∧ le p (dataAt d i) := by
      intro i h1 h2
      by_cases hib : b ≤ i
      · exact hM i hib h2
      · have := hMb i h1 (by omega)
        rw [hp] at this
        exact ⟨hA i (by omega) (by omega), S.of_not_less _ _ this⟩
    have hA1 : ∀ i, lo < i → i < b1 → le (dataAt d i) p := fun i h1 h2 => hA i h1 (by omega)
    by_cases hge : a1 ≥ b1
    · rw [if_pos hge]
      exact ⟨Rearr.refl _ _ _, hlob1, by simp only; omega, hA1, hM1⟩
    · rw [if_neg hge]
      have hlt : a1 < b1 := by omega
      have hgb : less (dataAt d (b1 - 1)) p = true := by rw [← hp]; exact hexb (by omega)
      have hga : less (dataAt d a1) p = false := by rw [← hp]; exact hexa hlt
      have hne : a1 ≠ b1 - 1 := by
        intro e
        rw [e, hgb] at hga
        exact Bool.noConfusion hga
      have hi1 : a1 < d.length := by omega
      have hi2 : b1 - 1 < d.length := by omega
      have hsw : ∀ j, dataAt (swapAt d a1 (b1 - 1)) j =
          if j = b1 - 1 then dataAt d a1 else if j = a1 then dataAt d (b1 - 1) else dataAt d j :=
        fun j => dataAt_swapAt d a1 (b1 - 1) j hi1 hi2
      have hR : Rearr (lo + 1) c d (swapAt d a1 (b1 - 1)) :=
        Rearr.swap d (by omega) (by omega) (by omega) (by omega) hlen
      have := ih (swapAt d a1 (b1 - 1)) (a1 + 1) (b1 - 1) (by omega) (by omega) (by omega)
        (by rw [length_swapAt]; exact hlen) (by omega)
        (by rw [hsw, if_neg (by omega), if_neg (by omega)]; exact hp)
        (by
          intro i h1 h2
          rw [hsw, if_neg (by omega)]
          by_cases hia : i = a1
          · rw [if_pos hia]
            exact hA1 (b1 - 1) (by omega) (by omega)
          · rw [if_neg hia]
            exact hA1 i h1 (by omega))
        (by
          intro i h1 h2
          rw [hsw]
          by_cases hib : i = b1 - 1
          · rw [if_pos hib]
            exact ⟨hA1 a1 (by omega) hlt, S.of_not_less _ _ hga⟩
          · rw [if_neg hib, if_neg (by omega)]
            exact hM1 i (by omega) h2)
      exact ⟨hR.trans this.1, this.2⟩

/-- The three probes of `doPivot_func` for elements equal to the pivot keep the
three regions around the pivot. -/
theorem probeDups_spec {less : α → α → Bool} {le : α → α → Prop} (S : Sandwich less le)
    (d : List α) (lo hi b c : Nat) (p : α) (hn : hi - lo > 12) (hbc : b = c) (hlob : lo < b)
    (h5 : 5 ≤ hi - c) (h4 : hi - c < (hi - lo) / 4) (hlen : hi ≤ d.length)
    (hp : dataAt d lo = p)
    (hA : ∀ i, lo < i → i < b → le (dataAt d i) p)
    (hC : ∀ i, c ≤ i → i < hi → le p (dataAt d i)) :
    Rearr (lo + 1) hi d (probeDups less d lo ((lo + hi) / 2) hi b c).1 ∧
      lo < (probeDups less d lo ((lo + hi) / 2) hi b c).2.1 ∧
      (probeDups less d lo ((lo + hi) / 2) hi b c).2.1 ≤
        (probeDups less d lo ((lo + hi) / 2) hi b c).2.2.1 ∧
      (probeDups less d lo ((lo + hi) / 2) hi b c).2.2.1 ≤ hi ∧
      Regions le (probeDups less d lo ((lo + hi) / 2) hi b c).1 p lo
        (probeDups less d lo ((lo + hi) / 2) hi b c).2.1
        (probeDups less d lo ((lo + hi) / 2) hi b c).2.2.1 hi := by
  subst hbc
  unfold probeDups
  simp only
  -- first probe
  obtain ⟨d1, c1, n1, e1, hR1, hc1, hc1', hA1, hM1, hC1⟩ :
      ∃ (d1 : List α) (c1 n1 : Nat),
        (if (!lessAt less d lo (hi - 1)) = true then (swapAt d b (hi - 1), b + 1, 1)
          else (d, b, 0)) = (d1, c1, n1) ∧
        Rearr (lo + 1) hi d d1 ∧ b ≤ c1 ∧ c1 ≤ b + 1 ∧
        (∀ i, lo < i → i < b → le (dataAt d1 i) p) ∧
        (∀ i, b ≤ i → i < c1 → le (dataAt d1 i) p ∧ le p (dataAt d1 i)) ∧
        (∀ i, c1 ≤ i → i < hi → le p (dataAt d1 i)) := by
    by_cases h : (!lessAt less d lo (hi - 1)) = true
    · have hle : le (dataAt d (hi - 1)) p := by
        rw [← hp]
        exact S.of_not_less _ _ (by simpa [lessAt] using h)
      have hi1 : b < d.length := by omega
      have hi2 : hi - 1 < d.length := by omega
      have hsw : ∀ j, dataAt (swapAt d b (hi - 1)) j =
          if j = hi - 1 then dataAt d b else if j = b then dataAt d (hi - 1) else dataAt d j :=
        fun j => dataAt_swapAt d b (hi - 1) j hi1 hi2
      refine ⟨swapAt d b (hi - 1), b + 1, 1, by rw [if_pos h],
        Rearr.swap d (by omega) (by omega) (by omega) (by omega) hlen, by omega, by omega,
        ?_, ?_, ?_⟩
      · intro i h1 h2
        rw [hsw, if_neg (by omega), if_neg (by omega)]
        exact hA i h1 h2
      · intro i h1 h2
        have hib : i = b := by omega
        subst hib
        rw [hsw, if_neg (by omega), if_pos rfl]
        exact ⟨hle, hC (hi - 1) (by omega) (by omega)⟩
      · intro i h1 h2
        rw [hsw]
        by_cases hih : i = hi - 1
        · rw [if_pos hih]
          exact hC b (Nat.le_refl _) (by omega)
        · rw [if_neg hih, if_neg (by omega)]
          exact hC i (by omega) h2
    · exact ⟨d, b, 0, by rw [if_neg h], Rearr.refl _ _ _, Nat.le_refl _, by omega, hA,
        fun i h1 h2 => by omega, hC⟩
  rw [e1]
  simp only
  have hp1 : dataAt d1 lo = p := by rw [hR1.out lo (by omega)]; exact hp
  have hlen1 : hi ≤ d1.length := by rw [hR1.len]; exact hlen
  -- second probe
  obtain ⟨b2, n2, e2, hb2, hb2', hA2, hM2⟩ :
      ∃ (b2 n2 : Nat),
        (if (!lessAt less d1 (b - 1) lo) = true then (b - 1, n1 + 1) else (b, n1)) = (b2, n2) ∧
        b2 ≤ b ∧ b ≤ b2 + 1 ∧
        (∀ i, lo < i → i < b2 → le (dataAt d1 i) p) ∧
        (∀ i, b2 ≤ i → i < c1 → le (dataAt d1 i) p ∧ le p (dataAt d1 i)) := by
    by_cases h : (!lessAt less d1 (b - 1) lo) = true
    · have hle : le p (dataAt d1 (b - 1)) := by
        rw [← hp1]
        exact S.of_not_less _ _ (by simpa [lessAt] using h)
      refine ⟨b - 1, n1 + 1, by rw [if_pos h], by omega, by omega,
        fun i h1 h2 => hA1 i h1 (by omega), ?_⟩
      intro i h1 h2
      by_cases hib : i = b - 1
      · subst hib
        exact ⟨hA1 (b - 1) (by omega) (by omega), hle⟩
      · exact hM1 i (by omega) h2
    · exact ⟨b, n1, by rw [if_neg h], Nat.le_refl _, by omega, hA1, hM1⟩
  rw [e2]
  simp only
  -- third probe
  by_cases h : (!lessAt less d1 ((lo + hi) / 2) lo) = true
  · rw [if_pos h]
    simp only
    have hm1 : lo < (lo + hi) / 2 := by omega
    have hm2 : (lo + hi) / 2 ≤ b2 - 1 := by omega
    have hle : le p (dataAt d1 ((lo + hi) / 2)) := by
      rw [← hp1]
      exact S.of_not_less _ _ (by simpa [lessAt] using h)
    have hi1 : (lo + hi) / 2 < d1.length := by omega
    have hi2 : b2 - 1 < d1.length := by omega
    have hsw : ∀ j, dataAt (swapAt d1 ((lo + hi) / 2) (b2 - 1)) j =
        if j = b2 - 1 then dataAt d1 ((lo + hi) / 2)
        else if j = (lo + hi) / 2 then dataAt d1 (b2 - 1) else dataAt d1 j :=
      fun j => dataAt_swapAt d1 ((lo + hi) / 2) (b2 - 1) j hi1 hi2
    refine ⟨hR1.trans (Rearr.swap d1 (by omega) (by omega) (by omega) (by omega) hlen1),
      by omega, by omega, by omega, ?_, ?_, ?_⟩
    · intro i h1 h2
      rw [hsw, if_neg (by omega)]
      by_cases him : i = (lo + hi) / 2
      · rw [if_pos him]
        exact hA2 (b2 - 1) (by omega) (by omega)
      · rw [if_neg him]
        exact hA2 i h1 (by omega)
    · intro i h1 h2
      rw [hsw]
      by_cases hib : i = b2 - 1
      · rw [if_pos hib]
        exact ⟨hA2 _ hm1 (by omega), hle⟩
      · rw [if_neg hib, if_neg (by omega)]
        exact hM2 i (by omega) h2
    · intro i h1 h2
      rw [hsw, if_neg (by omega), if_neg (by omega)]
      exact hC1 i h1 h2
  · rw [if_neg h]
    exact ⟨hR1, by simp only; omega, by simp only; omega, by simp only; omega, hA2, hM2, hC1⟩

/-- `doPivot_func` on a range of more than 12 elements: the slice is split at
`midlo < midhi` into a part not after the pivot, a part equivalent to the
pivot that starts with it, and a part not before the pivot. -/
theorem doPivot_func_spec {less : α → α → Bool} {le : α → α → Prop} (S : Sandwich less le)
    (d : List α) (lo hi : Nat) (hn : hi - lo > 12) (hlen : hi ≤ d.length) :
    ∀ r, doPivot_func less d lo hi = r →
      Rearr lo hi d r.1 ∧ lo ≤ r.2.1 ∧ r.2.1 < r.2.2 ∧ r.2.2 ≤ hi ∧
      (∀ i, lo ≤ i → i < r.2.1 → le (dataAt r.1 i) (dataAt r.1 r.2.1)) ∧
      (∀ i, r.2.1 ≤ i → i < r.2.2 →
        le (dataAt r.1 i) (dataAt r.1 r.2.1) ∧ le (dataAt r.1 r.2.1) (dataAt r.1 i)) ∧
      (∀ i, r.2.2 ≤ i → i < hi → le (dataAt r.1 r.2.1) (dataAt r.1 i)) := by
  intro r hr
  unfold doPivot_func at hr
  lift_lets at hr
  extract_lets m s8 dA dB dN dM pivot a0 c0 a1 b0 st d2 b1 c1 prot rp pp d3 b2 c2 prot2 q d4 b3
    at hr
  -- the choice of the pivot
  have hN : Rearr lo hi d dN := by
    by_cases h40 : hi - lo > 40
    · have hA : Rearr lo hi d dA :=
        medianOfThree_func_rearr less d lo hi _ _ _ (by omega) (by omega) (by omega) hlen
      have hB : Rearr lo hi dA dB :=
        medianOfThree_func_rearr less dA lo hi _ _ _ (by omega) (by omega) (by omega)
          (by rw [hA.len]; exact hlen)
      have hC : Rearr lo hi dB (medianOfThree_func less dB (hi - 1) (hi - 1 - s8)
          (hi - 1 - 2 * s8)) :=
        medianOfThree_func_rearr less dB lo hi _ _ _ (by omega) (by omega) (by omega)
          (by rw [hB.len, hA.len]; exact hlen)
      have e : dN = medianOfThree_func less dB (hi - 1) (hi - 1 - s8) (hi - 1 - 2 * s8) :=
        if_pos h40
      rw [e]
      exact hA.trans (hB.trans hC)
    · have e : dN = d := if_neg h40
      rw [e]
      exact Rearr.refl _ _ _
  have hlenN : hi ≤ dN.length := by rw [hN.len]; exact hlen
  have hM : Rearr lo hi dN dM :=
    medianOfThree_func_rearr less dN lo hi _ _ _ (by omega) (by omega) (by omega) hlenN
  have hlenM : hi ≤ dM.length := by rw [hM.len]; exact hlenN
  have hMle : le (dataAt dM lo) (dataAt dM (hi - 1)) :=
    medianOfThree_func_le S dN lo m (hi - 1) (by omega) (by omega) (by omega) (by omega)
      (by omega) (by omega)
  have hpdef : pivot = lo := rfl
  have ha0 : a0 = lo + 1 := rfl
  have hc0 : c0 = hi - 1 := rfl
  have hb0 : b0 = a1 := rfl
  -- the first scan
  have hscan := scanLessPivot_spec less dM pivot c0 (c0 - a0) a0 (Nat.le_refl _)
  have ha1lo : lo < a1 := hscan.1
  have ha1c : a1 ≤ hi - 1 := hscan.2.1 (by omega)
  have hAa : ∀ i, lo + 1 ≤ i → i < a1 → less (dataAt dM i) (dataAt dM lo) = true :=
    hscan.2.2.1
  clear hscan
  -- the partition loop
  have hpart := partitionLoop_spec S lo hi (dataAt dM lo) (c0 - b0 + 1) dM b0 c0 ha1lo ha1c
      (by omega) hlenM (by omega) rfl
      (fun i h1 h2 => S.of_less _ _ (hAa i h1 h2))
      (fun i h1 h2 => by
        have : i = hi - 1 := by omega
        rw [this]; exact hMle)
  have hR2 : Rearr (lo + 1) (hi - 1) dM d2 := hpart.1
  have hb1c1 : b1 = c1 := hpart.2.1
  have hlob1 : lo < b1 := hpart.2.2.1
  have hc1hi : c1 < hi := hpart.2.2.2.1
  have hA2 : ∀ i, lo < i → i < b1 → le (dataAt d2 i) (dataAt dM lo) := hpart.2.2.2.2.1
  have hC2 : ∀ i, c1 ≤ i → i < hi → le (dataAt dM lo) (dataAt d2 i) := hpart.2.2.2.2.2
  clear hpart
  have hp2 : dataAt d2 lo = dataAt dM lo := hR2.out lo (by omega)
  have hlen2 : hi ≤ d2.length := by rw [hR2.len]; exact hlenM
  -- the probes
  have h5 : Rearr (lo + 1) hi d2 d3 ∧ lo < b2 ∧ b2 ≤ c2 ∧ c2 ≤ hi ∧
      Regions le d3 (dataAt dM lo) lo b2 c2 hi := by
    by_cases hcond : (!prot && decide (hi - c1 < (hi - lo) / 4)) = true
    · have e : pp = ((rp.1, rp.2.1, rp.2.2.1), decide (rp.2.2.2 > 1)) := if_pos hcond
      have hprot : 5 ≤ hi - c1 ∧ hi - c1 < (hi - lo) / 4 := by
        simp only [Bool.and_eq_true, Bool.not_eq_true', decide_eq_true_eq, prot,
          decide_eq_false_iff_not] at hcond
        omega
      have := probeDups_spec S d2 lo hi b1 c1 (dataAt dM lo) hn hb1c1 hlob1 hprot.1 hprot.2
        hlen2 hp2 hA2 hC2
      have this : Rearr (lo + 1) hi d2 rp.1 ∧ lo < rp.2.1 ∧ rp.2.1 ≤ rp.2.2.1 ∧ rp.2.2.1 ≤ hi ∧
          Regions le rp.1 (dataAt dM lo) lo rp.2.1 rp.2.2.1 hi := this
      have e3 : d3 = rp.1 := by show pp.1.1 = _; rw [e]
      have eb : b2 = rp.2.1 := by show pp.1.2.1 = _; rw [e]
      have ec : c2 = rp.2.2.1 := by show pp.1.2.2 = _; rw [e]
      rw [e3, eb, ec]
      exact this
    · have e : pp = ((d2, b1, c1), prot) := if_neg hcond
      have e3 : d3 = d2 := by show pp.1.1 = _; rw [e]
      have eb : b2 = b1 := by show pp.1.2.1 = _; rw [e]
      have ec : c2 = c1 := by show pp.1.2.2 = _; rw [e]
      rw [e3, eb, ec]
      refine ⟨Rearr.refl _ _ _, hlob1, Nat.le_of_eq hb1c1, Nat.le_of_lt hc1hi, hA2, ?_, hC2⟩
      intro i h1 h2
      exact absurd (hb1c1 ▸ h1) (Nat.not_le.mpr h2)
  obtain ⟨hR3, hlob2, hb2c2, hc2hi, hA3, hM3, hC3⟩ := h5
  have hp3 : dataAt d3 lo = dataAt dM lo := by rw [hR3.out lo (by omega)]; exact hp2
  have hlen3 : hi ≤ d3.length := by rw [hR3.len]; exact hlen2
  -- the protection loop
  have h6 : Rearr (lo + 1) hi d3 d4 ∧ lo < b3 ∧ b3 ≤ c2 ∧
      Regions le d4 (dataAt dM lo) lo b3 c2 hi := by
    by_cases hcond : prot2 = true
    · have e : q = protectLoop less pivot (b2 - a1 + 1) d3 a1 b2 := if_pos hcond
      obtain ⟨g1, g2, g3, g4, g5⟩ := protectLoop_spec S lo c2 (dataAt dM lo) (b2 - a1 + 1) d3
        a1 b2 ha1lo hlob2 hb2c2 (Nat.le_trans hc2hi hlen3) (Nat.lt_succ_self _) hp3 hA3 hM3
      have e4 : d4 = (protectLoop less pivot (b2 - a1 + 1) d3 a1 b2).1 := by
        show q.1 = _; rw [e]
      have eb : b3 = (protectLoop less pivot (b2 - a1 + 1) d3 a1 b2).2.2 := by
        show q.2.2 = _; rw [e]
      rw [e4, eb]
      refine ⟨g1.mono (Nat.le_refl _) hc2hi, g2, g3, g4, g5, ?_⟩
      intro i h1 h2
      rw [g1.out i (Or.inr h1)]
      exact hC3 i h1 h2
    · have e : q = (d3, a1, b2) := if_neg hcond
      have e4 : d4 = d3 := by show q.1 = _; rw [e]
      have eb : b3 = b2 := by show q.2.2 = _; rw [e]
      rw [e4, eb]
      exact ⟨Rearr.refl _ _ _, hlob2, hb2c2, hA3, hM3, hC3⟩
  obtain ⟨hR4, hlob3, hb3c2, hA4, hM4, hC4⟩ := h6
  have hp4 : dataAt d4 lo = dataAt dM lo := by rw [hR4.out lo (by omega)]; exact hp3
  have hlen4 : hi ≤ d4.length := by rw [hR4.len]; exact hlen3
  have hb3 : 1 ≤ b3 := Nat.lt_of_le_of_lt (Nat.zero_le _) hlob3
  clear_value d4 b3 c2 d3 b2 d2 b1 c1 a1 dM dN
  -- the pivot goes to the middle
  have hi1 : lo < d4.length := by omega
  have hi2 : b3 - 1 < d4.length := by omega
  have hsw : ∀ j, dataAt (swapAt d4 lo (b3 - 1)) j =
      if j = b3 - 1 then dataAt d4 lo else if j = lo then dataAt d4 (b3 - 1) else dataAt d4 j :=
    fun j => dataAt_swapAt d4 lo (b3 - 1) j hi1 hi2
  have hRf : Rearr lo hi d4 (swapAt d4 lo (b3 - 1)) :=
    Rearr.swap d4 (Nat.le_refl _) (by omega) (by omega) (by omega) hlen4
  have hRall : Rearr lo hi d (swapAt d4 lo (b3 - 1)) :=
    hN.trans (hM.trans ((hR2.mono (by omega) (by omega)).trans
      ((hR3.mono (by omega) (Nat.le_refl _)).trans
        ((hR4.mono (by omega) (Nat.le_refl _)).trans hRf))))
  have hpiv : dataAt (swapAt d4 lo (b3 - 1)) (b3 - 1) = dataAt dM lo := by
    rw [hsw, if_pos rfl]; exact hp4
  subst hr
  show Rearr lo hi d (swapAt d4 pivot (b3 - 1)) ∧ lo ≤ b3 - 1 ∧ b3 - 1 < c2 ∧ c2 ≤ hi ∧
    (∀ i, lo ≤ i → i < b3 - 1 →
      le (dataAt (swapAt d4 pivot (b3 - 1)) i) (dataAt (swapAt d4 pivot (b3 - 1)) (b3 - 1))) ∧
    (∀ i, b3 - 1 ≤ i → i < c2 →
      le (dataAt (swapAt d4 pivot (b3 - 1)) i) (dataAt (swapAt d4 pivot (b3 - 1)) (b3 - 1)) ∧
        le (dataAt (swapAt d4 pivot (b3 - 1)) (b3 - 1)) (dataAt (swapAt d4 pivot (b3 - 1)) i)) ∧
    (∀ i, c2 ≤ i → i < hi →
      le (dataAt (swapAt d4 pivot (b3 - 1)) (b3 - 1)) (dataAt (swapAt d4 pivot (b3 - 1)) i))
  rw [hpiv]
  refine ⟨hRall, by omega, by omega, hc2hi, ?_, ?_, ?_⟩
  · intro i h1 h2
    rw [hsw, if_neg (by omega)]
    by_cases hil : i = lo
    · rw [if_pos hil]
      exact hA4 (b3 - 1) (by omega) (by omega)
    · rw [if_neg hil]
      exact hA4 i (by omega) (by omega)
  · intro i h1 h2
    rw [hsw]
    by_cases hib : i = b3 - 1
    · rw [if_pos hib, hp4]
      exact ⟨S.le_refl _, S.le_refl _⟩
    · rw [if_neg hib, if_neg (by omega)]
      exact hM4 i (by omega) h2
  · intro i h1 h2
    rw [hsw, if_neg (by omega), if_neg (by omega)]
    exact hC4 i h1 h2

/-! ## Orderer: quicksort and `sort.Slice` -/

theorem shellPass_rearr (less : α → α → Bool) (a b : Nat) :
    ∀ (k i : Nat) (d : List α), a + 6 ≤ i → b ≤ d.length →
      Rearr a b d (shellPass less b k i d) := by
  intro k
  induction k with
  | zero => intro i d _ _; exact Rearr.refl _ _ _
  | succ k ih =>
    intro i d hi hlen
    unfold shellPass
    by_cases hib : i < b
    · rw [if_pos hib]
      by_cases hl : lessAt less d i (i - 6) = true
      · rw [if_pos hl]
        have hR : Rearr a b d (swapAt d i (i - 6)) :=
          Rearr.swap d (by omega) hib (by omega) (by omega) hlen
        exact hR.trans (ih (i + 1) _ (by omega) (by rw [hR.len]; exact hlen))
      · rw [if_neg hl]
        exact ih (i + 1) d (by omega) hlen
    · rw [if_neg hib]
      exact Rearr.refl _ _ _

/-- Two parts in order around a middle part equivalent to `p`, the left part
not after `p` and the right part not before it, are in order as a whole. -/
theorem sortedSeg_of_parts {le : α → α → Prop}
    (htrans : ∀ x y z, le x y → le y z → le x z) (d : List α) (p : α) (a mlo mhi b : Nat)
    (hL : ∀ i, a ≤ i → i < mlo → le (dataAt d i) p)
    (hM : ∀ i, mlo ≤ i → i < mhi → le (dataAt d i) p ∧ le p (dataAt d i))
    (hR : ∀ i, mhi ≤ i → i < b → le p (dataAt d i))
    (sL : SortedSeg le d a mlo) (sR : SortedSeg le d mhi b) : SortedSeg le d a b := by
  intro i j hi hij hj
  have hip : i < mhi → le (dataAt d i) p := by
    intro h
    by_cases h' : i < mlo
    · exact hL i hi h'
    · exact (hM i (by omega) h).1
  have hpj : mlo ≤ j → le p (dataAt d j) := by
    intro h
    by_cases h' : j < mhi
    · exact (hM j h h').2
    · exact hR j (by omega) hj
  by_cases h1 : j < mlo
  · exact sL i j hi hij h1
  · by_cases h2 : mhi ≤ i
    · exact sR i j h2 hij hj
    · exact htrans _ _ _ (hip (by omega)) (hpj (by omega))

/-- `quickSort_func` leaves `[a, b)` in order and moves nothing else, for
every depth budget. -/
theorem quickSort_func_spec {less : α → α → Bool} {le : α → α → Prop} (S : Sandwich less le) :
    ∀ (maxDepth : Nat) (d : List α) (a b : Nat), a ≤ b → b ≤ d.length →
      Rearr a b d (quickSort_func less maxDepth d a b) ∧
        SortedSeg le (quickSort_func less maxDepth d a b) a b := by
  have hsmall : ∀ (d : List α) (a b : Nat), a ≤ b → b ≤ d.length →
      Rearr a b d (if b - a > 1 then
          insertionSort_func less (shellPass less b (b - (a + 6)) (a + 6) d) a b else d) ∧
        SortedSeg le (if b - a > 1 then
          insertionSort_func less (shellPass less b (b - (a + 6)) (a + 6) d) a b else d) a b := by
    intro d a b hab hlen
    by_cases h1 : b - a > 1
    · rw [if_pos h1]
      have hsh := shellPass_rearr less a b (b - (a + 6)) (a + 6) d (Nat.le_refl _) hlen
      have hins := insertionSort_func_spec S (shellPass less b (b - (a + 6)) (a + 6) d) a b
        (by rw [hsh.len]; exact hlen)
      exact ⟨hsh.trans hins.1, hins.2⟩
    · rw [if_neg h1]
      exact ⟨Rearr.refl _ _ _, fun i j hi hij hj => by omega⟩
  intro maxDepth
  induction maxDepth with
  | zero =>
    intro d a b hab hlen
    unfold quickSort_func
    by_cases h12 : b - a > 12
    · rw [if_pos h12]
      exact heapSort_func_spec S d a b hab hlen
    · rw [if_neg h12]
      exact hsmall d a b hab hlen
  | succ n ih =>
    intro d a b hab hlen
    unfold quickSort_func
    by_cases h12 : b - a > 12
    · rw [if_pos h12]
      simp only
      obtain ⟨hR1, hlo, hmid, hhi, hL, hM, hRr⟩ :=
        doPivot_func_spec S d a b h12 hlen (doPivot_func less d a b) rfl
      generalize doPivot_func less d a b = r at hR1 hlo hmid hhi hL hM hRr ⊢
      obtain ⟨d1, mlo, mhi⟩ := r
      simp only at hR1 hlo hmid hhi hL hM hRr ⊢
      have hlen1 : b ≤ d1.length := by rw [hR1.len]; exact hlen
      by_cases hside : mlo - a < b - mhi
      · rw [if_pos hside]
        obtain ⟨hR2, hs2⟩ := ih d1 a mlo hlo (by omega)
        generalize quickSort_func less n d1 a mlo = d2 at hR2 hs2 ⊢
        have hlen2 : b ≤ d2.length := by rw [hR2.len]; exact hlen1
        obtain ⟨hR3, hs3⟩ := ih d2 mhi b hhi hlen2
        generalize quickSort_func less n d2 mhi b = d3 at hR3 hs3 ⊢
        have hpiv : dataAt d3 mlo = dataAt d1 mlo := by
          rw [hR3.out mlo (by omega), hR2.out mlo (by omega)]
        refine ⟨hR1.trans ((hR2.mono (Nat.le_refl _) (by omega)).trans
          (hR3.mono (by omega) (Nat.le_refl _))), ?_⟩
        apply sortedSeg_of_parts S.trans d3 (dataAt d1 mlo) a mlo mhi b
        · intro i h1 h2
          rw [hR3.out i (by omega)]
          exact hR2.forall_within (P := fun x => le x (dataAt d1 mlo)) hL i h1 h2
        · intro i h1 h2
          rw [hR3.out i (by omega), hR2.out i (by omega)]
          exact hM i h1 h2
        · exact hR3.forall_within (P := fun x => le (dataAt d1 mlo) x)
            (fun i h1 h2 => by rw [hR2.out i (by omega)]; exact hRr i h1 h2)
        · intro i j h1 h2 h3
          rw [hR3.out i (by omega), hR3.out j (by omega)]
          exact hs2 i j h1 h2 h3
        · exact hs3
      · rw [if_neg hside]
        obtain ⟨hR2, hs2⟩ := ih d1 mhi b hhi hlen1
        generalize quickSort_func less n d1 mhi b = d2 at hR2 hs2 ⊢
        have hlen2 : b ≤ d2.length := by rw [hR2.len]; exact hlen1
        obtain ⟨hR3, hs3⟩ := ih d2 a mlo hlo (by omega)
        generalize quickSort_func less n d2 a mlo = d3 at hR3 hs3 ⊢
        refine ⟨hR1.trans ((hR2.mono (by omega) (Nat.le_refl _)).trans
          (hR3.mono (Nat.le_refl _) (by omega))), ?_⟩
        apply sortedSeg_of_parts S.trans d3 (dataAt d1 mlo) a mlo mhi b
        · exact hR3.forall_within (P := fun x => le x (dataAt d1 mlo))
            (fun i h1 h2 => by rw [hR2.out i (by omega)]; exact hL i h1 h2)
        · intro i h1 h2
          rw [hR3.out i (by omega), hR2.out i (by omega)]
          exact hM i h1 h2
        · intro i h1 h2
          rw [hR3.out i (by omega)]
          exact hR2.forall_within (P := fun x => le (dataAt d1 mlo) x) hRr i h1 h2
        · exact hs3
        · intro i j h1 h2 h3
          rw [hR3.out i (by omega), hR3.out j (by omega)]
          exact hs2 i j h1 h2 h3
    · rw [if_neg h12]
      exact hsmall d a b hab hlen

/-- The elements of a slice in order at every pair of positions form a list in
order. -/
theorem pairwise_of_sortedSeg {le : α → α → Prop} (d : List α)
    (h : SortedSeg le d 0 d.length) : d.Pairwise le := by
  rw [List.pairwise_iff_getElem]
  intro i j hi hj hij
  have := h i j (Nat.zero_le _) hij hj
  rwa [dataAt_eq_getElem d i hi, dataAt_eq_getElem d j hj] at this

/-- `sort.Slice` with a comparator between the strict and the non-strict part
of a preorder returns a rearrangement of the slice that is in order. -/
theorem sortSlice_spec {less : α → α → Bool} {le : α → α → Prop} (S : Sandwich less le)
    (d : List α) : (sortSlice less d).Perm d ∧ (sortSlice less d).Pairwise le := by
  unfold sortSlice
  obtain ⟨hR, hs⟩ := quickSort_func_spec S (maxDepth d.length) d 0 d.length (Nat.zero_le _)
    (Nat.le_refl _)
  refine ⟨hR.perm, pairwise_of_sortedSeg _ ?_⟩
  rw [hR.len]
  exact hs

end SortProofs

/-! ## Orderer: the depth budget -/

/-- The loop of `maxDepth` counts the binary digits of `i` when `k` is at least `i`. -/
theorem maxDepthLoop_eq (k : Nat) : ∀ (i depth : Nat), i ≤ k →
    maxDepthLoop k i depth = depth + Nat.size i := by
  induction k with
  | zero =>
    intro i depth h
    have : i = 0 := by omega
    subst this
    simp [maxDepthLoop]
  | succ k ih =>
    intro i depth h
    unfold maxDepthLoop
    by_cases hi : i > 0
    · rw [if_pos hi, ih (i / 2) (depth + 1) (by omega)]
      have h1 : Nat.size i ≤ Nat.size (i / 2) + 1 := by
        rw [Nat.size_le, Nat.pow_succ]
        have := Nat.lt_size_self (i / 2)
        omega
      have h2 : Nat.size (i / 2) < Nat.size i := by
        rw [Nat.lt_size]
        by_cases h0 : i / 2 = 0
        · rw [h0, Nat.size_zero]
          simpa using hi
        · have hs : 0 < Nat.size (i / 2) := Nat.size_pos.mpr (by omega)
          have h3 : Nat.size (i / 2) - 1 < Nat.size (i / 2) := by omega
          rw [Nat.lt_size] at h3
          have h4 : 2 ^ Nat.size (i / 2) = 2 * 2 ^ (Nat.size (i / 2) - 1) := by
            conv_lhs => rw [show Nat.size (i / 2) = (Nat.size (i / 2) - 1) + 1 by omega]
            rw [Nat.pow_succ, Nat.mul_comm]
          omega
      omega
    · have : i = 0 := by omega
      subst this
      simp

/-- The value `maxDepth(n)` is twice the number of binary digits of `n`. -/
theorem maxDepth_eq (n : Nat) : maxDepth n = Nat.size n * 2 := by
  unfold maxDepth
  rw [maxDepthLoop_eq n n 0 (Nat.le_refl _), Nat.zero_add]

/-! ## Orderer: `sortExamples` -/

/-- The comparator of `sortExamples` answers `true` on every pair in strict key
order and `false` on none in reversed strict key order. -/
theorem exampleLess_sandwich : Sandwich exampleLess keyLe := by
  refine ⟨?_, ?_, ?_⟩
  · intro x y h
    unfold exampleLess at h
    unfold keyLe
    cases hx : x.IsPinned with
    | true => exact Or.inl rfl
    | false =>
      cases hy : y.IsPinned with
      | true => simp [hx, hy] at h
      | false =>
        simp only [hx, hy, Bool.false_eq_true, if_false, decide_eq_true_eq] at h
        exact Or.inr ⟨rfl, by omega⟩
  · intro x y h
    unfold exampleLess at h
    unfold keyLe
    cases hx : x.IsPinned with
    | true => simp [hx] at h
    | false =>
      cases hy : y.IsPinned with
      | true => exact Or.inl rfl
      | false =>
        simp only [hx, hy, Bool.false_eq_true, if_false, decide_eq_false_iff_not] at h
        exact Or.inr ⟨rfl, by omega⟩
  · intro x y z h1 h2
    unfold keyLe at *
    rcases h1 with h1 | ⟨hy, h1⟩
    · exact Or.inl h1
    · rcases h2 with h2 | ⟨hz, h2⟩
      · rw [hy] at h2; exact absurd h2 (by decide)
      · exact Or.inr ⟨hz, by omega⟩

/-- The result of `sortExamples` is in key order: of two examples the earlier
one is pinned, or both are not pinned and the later score is not larger. -/
theorem sortExamples_keyLe (a : List Example) : (sortExamples a).Pairwise keyLe :=
  (sortSlice_spec exampleLess_sandwich a).2

/-- C1: for every list of examples, in the result of `sortExamples` every
pinned example stands at a smaller position than every example that is not
pinned. -/
theorem sortExamples_pinned_first (a : List Example) (i j : Nat)
    (hi : i < (sortExamples a).length) (hj : j < (sortExamples a).length)
    (hpin : (sortExamples a)[i].IsPinned = true)
    (hnot : (sortExamples a)[j].IsPinned = false) : i < j := by
  have hs := sortExamples_keyLe a
  rw [List.pairwise_iff_getElem] at hs
  by_contra hij
  have hne : i ≠ j := by
    intro e
    subst e
    rw [hpin] at hnot
    exact Bool.noConfusion hnot
  have hji : j < i := by omega
  rcases hs j i hj hi hji with h | ⟨h, _⟩
  · rw [hnot] at h; exact Bool.noConfusion h
  · rw [hpin] at h; exact Bool.noConfusion h

/-- C1 on a slice of five examples, two of them pinned: the pinned example at
position 1 of the result stands before the unpinned one at position 2. -/
theorem sortExamples_pinned_first_witness :
    (sortExamples [sampleExample 1 false 5, sampleExample 2 true 9, sampleExample 3 false 7,
        sampleExample 4 true 1, sampleExample 5 false 6]).map (fun e => (e.Id, e.IsPinned)) =
        [(4, true), (2, true), (3, false), (5, false), (1, false)] ∧
      1 < 2 :=
  ⟨by decide, sortExamples_pinned_first
    [sampleExample 1 false 5, sampleExample 2 true 9, sampleExample 3 false 7,
      sampleExample 4 true 1, sampleExample 5 false 6] 1 2 (by decide) (by decide) (by decide)
    (by decide)⟩

/-- C2 on the code: two pinned examples with scores 9 and 5 come out with the
scores 5 and 9, increasing inside the pinned group. -/
theorem sortExamples_pinned_scores_increase :
    sortExamples [sampleExample 1 true 9, sampleExample 2 true 5] =
      [sampleExample 2 true 5, sampleExample 1 true 9] := by
  decide

/-! ## Linker: topics of a tag, tag of a book -/

theorem getTopicsByDocTagID_fold (docTagID : Int) (l : List Topic) :
    ∀ res : List Topic,
      l.foldl (fun res topic => if topic.DocTagId = docTagID then res ++ [topic] else res) res =
        res ++ l.filter (fun t => t.DocTagId = docTagID) := by
  induction l with
  | nil => intro res; simp
  | cons t ts ih =>
    intro res
    rw [List.foldl_cons, ih]
    by_cases h : t.DocTagId = docTagID
    · simp [h, List.filter_cons]
    · simp [h, List.filter_cons]

/-- C15: for every tag id, `getTopicsByDocTagID` returns the topics of the
collection whose `DocTagId` is the id, each once and in the order of the
collection: it is the filter of the collection. -/
theorem getTopicsByDocTagID_eq_filter (w : World) (docTagID : Int) :
    getTopicsByDocTagID w docTagID = w.gTopics.filter (fun t => t.DocTagId = docTagID) := by
  unfold getTopicsByDocTagID
  rw [getTopicsByDocTagID_fold, List.nil_append]

theorem findDocTagByTitleMust_ok_iff (docTags : List DocTag) (title : String) (dc : DocTag) :
    findDocTagByTitleMust docTags title = .ok dc ↔
      docTags.find? (fun t => t.Title = title) = some dc := by
  induction docTags with
  | nil => simp [findDocTagByTitleMust]
  | cons t ts ih =>
    unfold findDocTagByTitleMust
    by_cases h : t.Title = title
    · simp [h, List.find?_cons]
    · simp [h, List.find?_cons, ih]

theorem findDocTagByTitleMust_error_iff (docTags : List DocTag) (title : String) :
    (∃ e, findDocTagByTitleMust docTags title = .error e) ↔
      ∀ t ∈ docTags, t.Title ≠ title := by
  induction docTags with
  | nil => simp [findDocTagByTitleMust]
  | cons t ts ih =>
    unfold findDocTagByTitleMust
    by_cases h : t.Title = title
    · simp [h]
    · simp [h, ih]

/-- C16: for every list of tags and every title, `findDocTagByTitleMust` ends
with the fatal error exactly when no tag of the list has the title, and a tag
is its result exactly when it is the first tag of the list with the title. -/
theorem findDocTagByTitleMust_spec (docTags : List DocTag) (title : String) :
    ((∃ e, findDocTagByTitleMust docTags title = .error e) ↔
        ∀ t ∈ docTags, t.Title ≠ title) ∧
      ∀ dc, findDocTagByTitleMust docTags title = .ok dc ↔
        docTags.find? (fun t => t.Title = title) = some dc :=
  ⟨findDocTagByTitleMust_error_iff docTags title,
    fun dc => findDocTagByTitleMust_ok_iff docTags title dc⟩

/-! ## Orderer: order properties of the comparators -/

/-- C18: the comparator of `sortExamples` is not a strict order, two pinned
examples are each before the other; the comparator derived from the key
`(isPinned ? 0 : 1, -score)` is irreflexive, asymmetric and transitive. -/
theorem exampleLess_not_strict_keyLess_strict :
    (∃ a b : Example, a.IsPinned = true ∧ b.IsPinned = true ∧
        exampleLess a b = true ∧ exampleLess b a = true) ∧
      (∀ x, ¬ keyLess x x) ∧
      (∀ x y, keyLess x y → ¬ keyLess y x) ∧
      (∀ x y z, keyLess x y → keyLess y z → keyLess x z) := by
  refine ⟨⟨sampleExample 1 true 9, sampleExample 2 true 5, rfl, rfl, rfl, rfl⟩, ?_, ?_, ?_⟩
  · intro x h
    unfold keyLess at h
    omega
  · intro x y h1 h2
    unfold keyLess at h1 h2
    omega
  · intro x y z h1 h2
    unfold keyLess at *
    omega

/-- C19: for every list of examples, the result of `sortExamples` is a
rearrangement of the list, of the same length. -/
theorem sortExamples_perm (a : List Example) :
    (sortExamples a).Perm a ∧ (sortExamples a).length = a.length := by
  have h := (sortSlice_spec exampleLess_sandwich a).1
  exact ⟨h, h.length_eq⟩

/-- C17 fails as stated: of thirteen unpinned examples with the scores
1, 1, 1, 5, 5, 5, 9, 9, 9, 1, 1, 1, 1 in this order, the examples 8 and 9, both
of score 9, come out in the order 9, 8, and the examples 2 and 3, both of
score 1, in the order 3, 2. The comparator is a strict order on unpinned
examples: the exchange of the ties is made by the partition step of
`sort.Slice`. On this input the routine of the later library (`pdqsort_func`,
Go 1.19 on) returns the same list: its pivot is `a[3]`, the median of `a[3]`,
`a[6]` and `a[9]`, and its partition exchanges `a[1]` with `a[8]`, `a[2]` with
`a[7]`, `a[3]` with `a[6]`, then `a[0]` with `a[3]`. -/
theorem sortExamples_stable_counterexample :
    sameRank (sampleExample 8 false 9) (sampleExample 9 false 9) ∧
      (sortExamples [sampleExample 1 false 1, sampleExample 2 false 1, sampleExample 3 false 1,
        sampleExample 4 false 5, sampleExample 5 false 5, sampleExample 6 false 5,
        sampleExample 7 false 9, sampleExample 8 false 9, sampleExample 9 false 9,
        sampleExample 10 false 1, sampleExample 11 false 1, sampleExample 12 false 1,
        sampleExample 13 false 1]).map (fun e => e.Id) =
        [7, 9, 8, 4, 5, 6, 1, 3, 2, 10, 11, 12, 13] := by
  refine ⟨⟨rfl, rfl⟩, by decide⟩

/-- C17, as the code has it: for every list of examples, every pinned status
and every score, the examples of that status and score in the result of
`sortExamples` are a rearrangement of those in the list. -/
theorem sortExamples_keeps_ties (a : List Example) (pinned : Bool) (score : Int) :
    ((sortExamples a).filter (fun e => e.IsPinned = pinned ∧ e.Score = score)).Perm
      (a.filter (fun e => e.IsPinned = pinned ∧ e.Score = score)) :=
  ((sortSlice_spec exampleLess_sandwich a).1).filter _

/-! ## Serializer: chapter record -/

/-- A markdown field followed by its fallback under the emptiness test is one
field: the fallback when the markdown text is blank, else the markdown field. -/
theorem appendField_markdown_or_html {β : Type} (m : Mdutil) (lang k kh md html : String)
    (s : String) (K : String → Except String β) :
    (appendField s (serFieldMarkdown m lang k md) >>= fun s1 =>
        (if isEmptyString md then appendField s1 (serField m kh html) else pure s1) >>= K) =
      appendField s (if isEmptyString md then serField m kh html else serField m k md) >>= K := by
  by_cases he : isEmptyString md = true
  · simp [serFieldMarkdown, he, appendField, bind, Except.bind]
  · simp only [serFieldMarkdown, he, reformatMarkdown, Bool.false_eq_true, if_false]
    cases serField m k md with
    | error e => rfl
    | ok t => rfl

/-- The file `writeIndexTxtMust` writes, field by field, with the versions text
as `shortenVersion` returns it; a fatal error of a field aborts the write. -/
theorem writeIndexTxtMust_fields (m : Mdutil) (lang path : String) (topic : Topic) (fs : Files) :
    writeIndexTxtMust m lang path topic fs =
      (do
        let title ← serField m "Title" topic.Title
        let versions ← serField m "Versions" (shortenVersion topic.VersionsJson)
        let versionsHtml ←
          (if isEmptyString (shortenVersion topic.VersionsJson) then
            serField m "VersionsHtml" topic.HelloWorldVersionsHtml
          else pure "")
        let introduction ←
          (if isEmptyString topic.IntroductionMarkdown then
            serField m "IntroductionHtml" topic.IntroductionHtml
          else serField m "Introduction" topic.IntroductionMarkdown)
        let syntaxField ←
          (if isEmptyString topic.SyntaxMarkdown then serField m "SyntaxHtml" topic.SyntaxHtml
          else serField m "Syntax" topic.SyntaxMarkdown)
        let parameters ←
          (if isEmptyString topic.ParametersMarkdown then
            serField m "ParametersHtml" topic.ParametersHtml
          else serField m "Parameters" topic.ParametersMarkdown)
        let remarks ←
          (if isEmptyString topic.RemarksMarkdown then serField m "RemarksHtml" topic.RemarksHtml
          else serField m "Remarks" topic.RemarksMarkdown)
        pure (fs ++ [(path, title ++ versions ++ versionsHtml ++ introduction ++ syntaxField
          ++ parameters ++ remarks)])) ∧
      (topic.VersionsJson = "[]" →
        serField m "Versions" (shortenVersion topic.VersionsJson) = .ok "") := by
  constructor
  · unfold writeIndexTxtMust indexText
    simp only [appendField_markdown_or_html]
    generalize serField m "Title" topic.Title = eT
    generalize serField m "Versions" (shortenVersion topic.VersionsJson) = eV
    generalize (if isEmptyString topic.IntroductionMarkdown = true then
      serField m "IntroductionHtml" topic.IntroductionHtml
      else serField m "Introduction" topic.IntroductionMarkdown) = eI
    generalize (if isEmptyString topic.SyntaxMarkdown = true then
      serField m "SyntaxHtml" topic.SyntaxHtml
      else serField m "Syntax" topic.SyntaxMarkdown) = eS
    generalize (if isEmptyString topic.ParametersMarkdown = true then
      serField m "ParametersHtml" topic.ParametersHtml
      else serField m "Parameters" topic.ParametersMarkdown) = eP
    generalize (if isEmptyString topic.RemarksMarkdown = true then
      serField m "RemarksHtml" topic.RemarksHtml
      else serField m "Remarks" topic.RemarksMarkdown) = eR
    generalize serField m "VersionsHtml" topic.HelloWorldVersionsHtml = eH
    by_cases hv : isEmptyString (shortenVersion topic.VersionsJson) = true
    · simp only [hv, if_true]
      cases eT <;> cases eV <;> cases eH <;> cases eI <;> cases eS <;> cases eP <;> cases eR <;>
        simp [appendField, bind, Except.bind, pure, Except.pure, String.append_assoc]
    · simp only [hv, Bool.false_eq_true, if_false]
      cases eT <;> cases eV <;> cases eI <;> cases eS <;> cases eP <;> cases eR <;>
        simp [appendField, bind, Except.bind, pure, Except.pure, String.append_assoc]
  · intro h
    rw [h]
    rfl

/-- C11: for every topic, `writeIndexTxtMust` writes to its path, in this
order: the `Title` field; the `Versions` field of `VersionsJson`, which is
empty when `VersionsJson` is the literal `[]`; the `VersionsHtml` field of
`HelloWorldVersionsHtml`, only when `VersionsJson` is `[]` or blank; and for
each of Introduction, Syntax, Parameters and Remarks the markdown field when the
markdown text is not blank, else the field with the `Html` key. A fatal error of
a field aborts the write. -/
theorem writeIndexTxtMust_text (m : Mdutil) (lang path : String) (topic : Topic) (fs : Files) :
    writeIndexTxtMust m lang path topic fs =
      (do
        let title ← serField m "Title" topic.Title
        let versions ←
          (if topic.VersionsJson = "[]" then pure ""
          else serField m "Versions" topic.VersionsJson)
        let versionsHtml ←
          (if topic.VersionsJson = "[]" ∨ isEmptyString topic.VersionsJson then
            serField m "VersionsHtml" topic.HelloWorldVersionsHtml
          else pure "")
        let introduction ←
          (if isEmptyString topic.IntroductionMarkdown then
            serField m "IntroductionHtml" topic.IntroductionHtml
          else serField m "Introduction" topic.IntroductionMarkdown)
        let syntaxField ←
          (if isEmptyString topic.SyntaxMarkdown then serField m "SyntaxHtml" topic.SyntaxHtml
          else serField m "Syntax" topic.SyntaxMarkdown)
        let parameters ←
          (if isEmptyString topic.ParametersMarkdown then
            serField m "ParametersHtml" topic.ParametersHtml
          else serField m "Parameters" topic.ParametersMarkdown)
        let remarks ←
          (if isEmptyString topic.RemarksMarkdown then serField m "RemarksHtml" topic.RemarksHtml
          else serField m "Remarks" topic.RemarksMarkdown)
        pure (fs ++ [(path, title ++ versions ++ versionsHtml ++ introduction ++ syntaxField
          ++ parameters ++ remarks)])) := by
  have h := (writeIndexTxtMust_fields m lang path topic fs).1
  rw [h]
  by_cases hv : topic.VersionsJson = "[]"
  · have h1 : serField m "Versions" (shortenVersion topic.VersionsJson) = .ok "" := by
      rw [hv]; rfl
    have h2 : isEmptyString (shortenVersion topic.VersionsJson) = true := by
      rw [hv]; rfl
    simp only [h1, h2, hv, if_true, true_or]
    rfl
  · have h1 : shortenVersion topic.VersionsJson = topic.VersionsJson := by
      simp [shortenVersion, hv]
    simp only [h1, hv, if_false, false_or]

/-- C11 on a topic whose versions are `[1,2]`, and on the same topic with the
placeholder `[]`: the second text has no `Versions` field and has the
`VersionsHtml` field. -/
theorem writeIndexTxtMust_text_witness :
    writeIndexTxtMust sampleMdutil "" "books/foo/0010-Intro/index.txt" (sampleTopic "[1,2]") [] =
      .ok [("books/foo/0010-Intro/index.txt",
        "Title: Intro\nVersions: [1,2]\nIntroduction: hello\nSyntaxHtml: <p>s</p>\n")] ∧
    writeIndexTxtMust sampleMdutil "" "books/foo/0010-Intro/index.txt" (sampleTopic "[]") [] =
      .ok [("books/foo/0010-Intro/index.txt",
        "Title: Intro\nVersionsHtml: <p>v</p>\nIntroduction: hello\nSyntaxHtml: <p>s</p>\n")] :=
  ⟨(writeIndexTxtMust_text _ _ _ _ _).trans rfl,
    (writeIndexTxtMust_text _ _ _ _ _).trans rfl⟩

/-! ## Book builder: the loops of `genBook` -/

theorem runWrites_append (l1 l2 : WritePlan) :
    ∀ fs : Files, runWrites (l1 ++ l2) fs =
      match runWrites l1 fs with
      | .error e => .error e
      | .ok fs1 => runWrites l2 fs1 := by
  induction l1 with
  | nil => intro fs; rfl
  | cons pw rest ih =>
    intro fs
    obtain ⟨p, t⟩ := pw
    cases t with
    | error e => rfl
    | ok s =>
      simp only [List.cons_append, runWrites]
      exact ih _

/-- The section writes of a topic directory for examples with a text, the
first of them numbered `k` (from 0). -/
theorem genBookSections_eq (m : Mdutil) (lib : PathLib) (lang dirPath : String) :
    ∀ (examples : List Example) (k : Nat) (st : RunState),
      genBookSections m lib lang dirPath examples (10 * (k + 1)) st =
        match runWrites (((examples.filter (fun ex => !bothBodiesEmpty ex)).enumFrom k).map
            (fun je => (lib.filepathJoin [dirPath, sectionFileName lib (10 * (je.1 + 1)) je.2],
              sectionText m lang je.2))) st.files with
        | .error e => .error e
        | .ok fs => .ok ⟨fs, st.emptyExamplexs ++ examples.filter bothBodiesEmpty, st.reports⟩ := by
  intro examples
  induction examples with
  | nil =>
    intro k st
    simp [genBookSections, runWrites]
  | cons ex rest ih =>
    intro k st
    unfold genBookSections
    by_cases he : bothBodiesEmpty ex = true
    · rw [if_pos he, ih k]
      simp [List.filter_cons, he]
    · rw [if_neg he]
      have he' : bothBodiesEmpty ex = false := by simpa using he
      simp only [List.filter_cons, he', Bool.not_false, if_true, Bool.false_eq_true, if_false,
        List.enumFrom_cons, List.map_cons, writeSectionMust]
      cases hs : sectionText m lang ex with
      | error e => simp [runWrites, bind, Except.bind]
      | ok s =>
        have h10 : 10 * (k + 1) + 10 = 10 * (k + 1 + 1) := by omega
        simp only [runWrites, bind, Except.bind, pure, Except.pure, h10]
        rw [ih (k + 1)]

/-- The writes of the topics of a book, the first of them numbered `i` (from
0), with the count of sections and the examples without text. -/
theorem genBookTopics_eq (w : World) (m : Mdutil) (lib : PathLib) (lang bookDstDir : String)
    (docTagId : Int) :
    ∀ (topics : List Topic) (i n : Nat) (st : RunState),
      genBookTopics w m lib lang bookDstDir docTagId topics (10 * (i + 1)) n st =
        match runWrites ((topics.enumFrom i).flatMap (fun it =>
            specTopicWrites m lib lang bookDstDir it.1 it.2 (orderedExamples w docTagId it.2)))
            st.files with
        | .error e => .error e
        | .ok fs =>
          .ok (n + (topics.map (fun t => (orderedExamples w docTagId t).length)).sum,
            ⟨fs, st.emptyExamplexs ++
              (topics.flatMap (orderedExamples w docTagId)).filter bothBodiesEmpty,
              st.reports⟩) := by
  intro topics
  induction topics with
  | nil =>
    intro i n st
    simp [genBookTopics, runWrites]
  | cons t rest ih =>
    intro i n st
    unfold genBookTopics
    simp only [List.enumFrom_cons, List.flatMap_cons, runWrites_append, List.map_cons,
      List.sum_cons, List.filter_append]
    have hex : sortExamples (getExamplesForTopic w docTagId t.Id) = orderedExamples w docTagId t :=
      rfl
    rw [hex]
    generalize orderedExamples w docTagId t = examples
    unfold specTopicWrites specChapterDir
    simp only [writeIndexTxtMust, List.enum]
    cases hidx : indexText m lang t with
    | error e => simp [runWrites, bind, Except.bind]
    | ok s =>
      simp only [runWrites, bind, Except.bind, pure, Except.pure]
      have h := genBookSections_eq m lib lang
        (lib.filepathJoin ["books", bookDstDir, chapterDirName lib (10 * (i + 1)) t]) examples 0
        ⟨st.files ++ [(lib.filepathJoin [lib.filepathJoin
          ["books", bookDstDir, chapterDirName lib (10 * (i + 1)) t], "index.txt"], s)],
          st.emptyExamplexs, st.reports⟩
      simp only [Nat.zero_add, Nat.mul_one] at h
      rw [h]
      cases hsec : runWrites (((examples.filter (fun ex => !bothBodiesEmpty ex)).enumFrom 0).map
          (fun je => (lib.filepathJoin [lib.filepathJoin
            ["books", bookDstDir, chapterDirName lib (10 * (i + 1)) t],
            sectionFileName lib (10 * (je.1 + 1)) je.2], sectionText m lang je.2)))
          (st.files ++ [(lib.filepathJoin [lib.filepathJoin
            ["books", bookDstDir, chapterDirName lib (10 * (i + 1)) t], "index.txt"], s)]) with
      | error e => rfl
      | ok fs =>
        have h10 : 10 * (i + 1) + 10 = 10 * (i + 1 + 1) := by omega
        simp only [h10]
        rw [ih (i + 1)]
        simp [Nat.add_assoc, List.append_assoc, specTopicWrites, specChapterDir, List.enum]

/-- The run of `genBook`: the fatal error of the tag lookup or of the first
failing write, else the planned writes carried out, the examples without text
appended to `emptyExamplexs` and one import line printed. -/
theorem genBook_eq (w : World) (m : Mdutil) (lib : PathLib) (book : Book) (lang : String)
    (st : RunState) :
    genBook w m lib book lang st =
      match findDocTagByTitleMust w.gDocTags book.Name with
      | .error e => .error e
      | .ok docTag =>
        match runWrites (specBookWrites w m lib lang (lib.MakeURLSafe book.newName) docTag.Id
            (getTopicsByDocTagID w docTag.Id)) st.files with
        | .error e => .error e
        | .ok fs =>
          .ok ⟨fs,
            st.emptyExamplexs ++ ((getTopicsByDocTagID w docTag.Id).flatMap
              (orderedExamples w docTag.Id)).filter bothBodiesEmpty,
            st.reports ++ [⟨book.Name, (getTopicsByDocTagID w docTag.Id).length,
              ((getTopicsByDocTagID w docTag.Id).map
                (fun t => (orderedExamples w docTag.Id t).length)).sum⟩]⟩ := by
  unfold genBook
  simp only
  cases findDocTagByTitleMust w.gDocTags book.Name with
  | error e => rfl
  | ok docTag =>
    simp only
    have h := genBookTopics_eq w m lib lang (lib.MakeURLSafe book.newName) docTag.Id
      (getTopicsByDocTagID w docTag.Id) 0 0 st
    simp only [Nat.zero_add, Nat.mul_one] at h
    rw [h]
    unfold specBookWrites
    simp only [List.enum]
    cases runWrites ((List.enumFrom 0 (getTopicsByDocTagID w docTag.Id)).flatMap (fun it =>
        specTopicWrites m lib lang (lib.MakeURLSafe book.newName) it.1 it.2
          (orderedExamples w docTag.Id it.2))) st.files with
    | error e => rfl
    | ok fs => rfl

theorem runWrites_paths (plan : WritePlan) :
    ∀ (fs fs1 : Files), runWrites plan fs = .ok fs1 →
      fs1.map Prod.fst = fs.map Prod.fst ++ plan.map Prod.fst := by
  induction plan with
  | nil =>
    intro fs fs1 h
    simp only [runWrites, Except.ok.injEq] at h
    simp [h]
  | cons pw rest ih =>
    intro fs fs1 h
    obtain ⟨p, t⟩ := pw
    cases t with
    | error e => simp [runWrites] at h
    | ok s =>
      simp only [runWrites] at h
      rw [ih _ _ h]
      simp

theorem specTopicWrites_length (m : Mdutil) (lib : PathLib) (lang bookDstDir : String) (i : Nat)
    (t : Topic) (examples : List Example) :
    (specTopicWrites m lib lang bookDstDir i t examples).length =
      1 + (examples.filter (fun ex => !bothBodiesEmpty ex)).length := by
  simp [specTopicWrites, List.enum, Nat.add_comm]

theorem enumFrom_flatMap_length {α β : Type} (f : Nat × α → List β) (g : α → Nat)
    (h : ∀ i x, (f (i, x)).length = g x) :
    ∀ (l : List α) (i : Nat), ((l.enumFrom i).flatMap f).length = (l.map g).sum := by
  intro l
  induction l with
  | nil => intro i; rfl
  | cons x xs ih =>
    intro i
    simp [List.enumFrom_cons, List.flatMap_cons, h, ih]

theorem filter_length_split {α : Type} (p : α → Bool) (l : List α) :
    (l.filter (fun x => !p x)).length + (l.filter p).length = l.length := by
  induction l with
  | nil => rfl
  | cons x xs ih =>
    cases hp : p x <;> simp [List.filter_cons, hp] <;> omega

theorem sum_map_length_flatMap {α β : Type} (f : α → List β) (l : List α) :
    (l.map (fun x => (f x).length)).sum = (l.flatMap f).length := by
  induction l with
  | nil => rfl
  | cons x xs ih => simp [ih]

theorem sum_map_filter_length_flatMap {α β : Type} (f : α → List β) (p : β → Bool)
    (l : List α) :
    (l.map (fun x => 1 + ((f x).filter p).length)).sum =
      l.length + ((l.flatMap f).filter p).length := by
  induction l with
  | nil => rfl
  | cons x xs ih => simp [ih]; omega

/-- The planned writes of a book are one index file for each topic and one
section file for each example with a text. -/
theorem specBookWrites_length (w : World) (m : Mdutil) (lib : PathLib) (lang bookDstDir : String)
    (docTagId : Int) (topics : List Topic) :
    (specBookWrites w m lib lang bookDstDir docTagId topics).length =
      topics.length + ((topics.flatMap (orderedExamples w docTagId)).filter
        (fun ex => !bothBodiesEmpty ex)).length := by
  unfold specBookWrites
  rw [List.enum, enumFrom_flatMap_length _
    (fun t => 1 + ((orderedExamples w docTagId t).filter (fun ex => !bothBodiesEmpty ex)).length)
    (fun i t => specTopicWrites_length m lib lang bookDstDir i t _)]
  exact sum_map_filter_length_flatMap _ _ _

/-- C12: in `genBook`, for the tag of the book, the files are written as the
specification numbers them: the topic at place `i` (from 1) of the tag, in
source order, gets the chapter number `10 * i`, and in each topic the example
at place `j` (from 1) among those with a text, in presentation order, gets the
section number `10 * j`; an example without text takes no number. A fatal
error of a write ends the run. -/
theorem genBook_numbering (w : World) (m : Mdutil) (lib : PathLib) (book : Book)
    (lang : String) (st : RunState) (docTag : DocTag)
    (htag : findDocTagByTitleMust w.gDocTags book.Name = .ok docTag) :
    (genBook w m lib book lang st).map (fun s => s.files) =
      runWrites (specBookWrites w m lib lang (lib.MakeURLSafe book.newName) docTag.Id
        (getTopicsByDocTagID w docTag.Id)) st.files := by
  rw [genBook_eq, htag]
  simp only
  cases runWrites (specBookWrites w m lib lang (lib.MakeURLSafe book.newName) docTag.Id
      (getTopicsByDocTagID w docTag.Id)) st.files with
  | error e => rfl
  | ok fs => rfl

/-- C12 on the sample book: chapters `0010` and `0020`, and in the first
chapter the sections `010` and `020` around the skipped example 102. -/
theorem genBook_numbering_witness :
    findDocTagByTitleMust sampleBookWorld.gDocTags sampleBook.Name = .ok ⟨1, "Foo", 2, 0⟩ ∧
      (genBook sampleBookWorld sampleMdutil samplePathLib sampleBook "" sampleStart).map
          (fun s => s.files.map Prod.fst) =
        .ok ["books/foo/0010-Intro/index.txt", "books/foo/0010-Intro/010-second.md",
          "books/foo/0010-Intro/020-first.md", "books/foo/0020-Next/index.txt",
          "books/foo/0020-Next/010-third.md"] ∧
      (genBook sampleBookWorld sampleMdutil samplePathLib sampleBook "" sampleStart).map
          (fun s => s.files) =
        runWrites (specBookWrites sampleBookWorld sampleMdutil samplePathLib ""
          (samplePathLib.MakeURLSafe sampleBook.newName) 1
          (getTopicsByDocTagID sampleBookWorld 1)) sampleStart.files :=
  ⟨rfl, rfl, genBook_numbering sampleBookWorld sampleMdutil samplePathLib sampleBook ""
    sampleStart ⟨1, "Foo", 2, 0⟩ rfl⟩

/-- The paths of the planned writes of a book: for each topic the index file,
then the section files of its examples with a text. -/
theorem specBookWrites_paths (w : World) (m : Mdutil) (lib : PathLib) (lang bookDstDir : String)
    (docTagId : Int) (topics : List Topic) :
    (specBookWrites w m lib lang bookDstDir docTagId topics).map Prod.fst =
      topics.enum.flatMap (fun it =>
        lib.filepathJoin [specChapterDir lib bookDstDir it.1 it.2, "index.txt"] ::
          (((orderedExamples w docTagId it.2).filter (fun ex => !bothBodiesEmpty ex)).enum.map
            (fun je => lib.filepathJoin [specChapterDir lib bookDstDir it.1 it.2,
              sectionFileName lib (10 * (je.1 + 1)) je.2]))) := by
  unfold specBookWrites
  generalize topics.enum = l
  induction l with
  | nil => rfl
  | cons it rest ih =>
    simp only [List.flatMap_cons, List.map_append, ih]
    congr 1
    simp [specTopicWrites, Function.comp_def]

/-- C13: when `genBook` ends without a fatal error, the list `emptyExamplexs`
is the previous list followed by the examples of the book without text (both
body fields blank), in processing order, and the files written are, for each
topic, the index file followed by one section file for each example of the
topic that has a text, and none for an example without. -/
theorem genBook_empty_examples (w : World) (m : Mdutil) (lib : PathLib) (book : Book)
    (lang : String) (st st1 : RunState) (h : genBook w m lib book lang st = .ok st1) :
    ∃ docTag, findDocTagByTitleMust w.gDocTags book.Name = .ok docTag ∧
      st1.emptyExamplexs = st.emptyExamplexs ++
        ((getTopicsByDocTagID w docTag.Id).flatMap (orderedExamples w docTag.Id)).filter
          bothBodiesEmpty ∧
      st1.files.map Prod.fst = st.files.map Prod.fst ++
        (getTopicsByDocTagID w docTag.Id).enum.flatMap (fun it =>
          lib.filepathJoin
              [specChapterDir lib (lib.MakeURLSafe book.newName) it.1 it.2, "index.txt"] ::
            (((orderedExamples w docTag.Id it.2).filter (fun ex => !bothBodiesEmpty ex)).enum.map
              (fun je => lib.filepathJoin
                [specChapterDir lib (lib.MakeURLSafe book.newName) it.1 it.2,
                  sectionFileName lib (10 * (je.1 + 1)) je.2]))) := by
  rw [genBook_eq] at h
  cases htag : findDocTagByTitleMust w.gDocTags book.Name with
  | error e => rw [htag] at h; simp at h
  | ok docTag =>
    rw [htag] at h
    simp only at h
    refine ⟨docTag, rfl, ?_⟩
    cases hrun : runWrites (specBookWrites w m lib lang (lib.MakeURLSafe book.newName) docTag.Id
        (getTopicsByDocTagID w docTag.Id)) st.files with
    | error e => rw [hrun] at h; simp at h
    | ok fs =>
      rw [hrun] at h
      simp only [Except.ok.injEq] at h
      subst h
      refine ⟨rfl, ?_⟩
      rw [← specBookWrites_paths w m lib lang]
      exact runWrites_paths _ _ _ hrun

/-- C13 on the sample book: example 102 has no text, it gets no file and is
the one example appended to the list. -/
theorem genBook_empty_examples_witness :
    genBook sampleBookWorld sampleMdutil samplePathLib sampleBook "" sampleStart =
        .ok ⟨[("books/foo/0010-Intro/index.txt", "Title: Intro\n"),
            ("books/foo/0010-Intro/010-second.md", "Title: second\nScore: 9\nBody: B\n"),
            ("books/foo/0010-Intro/020-first.md", "Title: first\nScore: 5\nBody: A\n"),
            ("books/foo/0020-Next/index.txt", "Title: Next\n"),
            ("books/foo/0020-Next/010-third.md", "Title: third\nScore: 1\nBodyHtml: <p>C</p>\n")],
          [⟨102, 5, "blank", 7, false, " ", ""⟩], [⟨"Foo", 2, 4⟩]⟩ ∧
      ∃ docTag, findDocTagByTitleMust sampleBookWorld.gDocTags sampleBook.Name = .ok docTag ∧
        [(⟨102, 5, "blank", 7, false, " ", ""⟩ : Example)] = sampleStart.emptyExamplexs ++
          ((getTopicsByDocTagID sampleBookWorld docTag.Id).flatMap
            (orderedExamples sampleBookWorld docTag.Id)).filter bothBodiesEmpty :=
  ⟨rfl, by
    obtain ⟨docTag, h1, h2, _⟩ := genBook_empty_examples sampleBookWorld sampleMdutil
      samplePathLib sampleBook "" sampleStart _ rfl
    exact ⟨docTag, h1, h2⟩⟩

/-- C20: when `genBook` ends without a fatal error, it prints one import line;
the section count of the line is the sum over the topics of the book of the
number of resolved examples, which is the number of section files written plus
the number of examples without text appended to `emptyExamplexs`; it is the
number of section files written exactly when no example of the book is
without text. -/
theorem genBook_section_count (w : World) (m : Mdutil) (lib : PathLib) (book : Book)
    (lang : String) (st st1 : RunState) (h : genBook w m lib book lang st = .ok st1) :
    ∃ (docTag : DocTag) (report : ImportReport) (written skipped : Nat),
      findDocTagByTitleMust w.gDocTags book.Name = .ok docTag ∧
      st1.reports = st.reports ++ [report] ∧
      report.nChapters = (getTopicsByDocTagID w docTag.Id).length ∧
      report.nSections = ((getTopicsByDocTagID w docTag.Id).map
        (fun t => (orderedExamples w docTag.Id t).length)).sum ∧
      st1.files.length = st.files.length + report.nChapters + written ∧
      st1.emptyExamplexs.length = st.emptyExamplexs.length + skipped ∧
      written = (((getTopicsByDocTagID w docTag.Id).flatMap
        (orderedExamples w docTag.Id)).filter (fun ex => !bothBodiesEmpty ex)).length ∧
      skipped = (((getTopicsByDocTagID w docTag.Id).flatMap
        (orderedExamples w docTag.Id)).filter bothBodiesEmpty).length ∧
      report.nSections = written + skipped ∧
      (report.nSections = written ↔ skipped = 0) := by
  rw [genBook_eq] at h
  cases htag : findDocTagByTitleMust w.gDocTags book.Name with
  | error e => rw [htag] at h; simp at h
  | ok docTag =>
    rw [htag] at h
    simp only at h
    cases hrun : runWrites (specBookWrites w m lib lang (lib.MakeURLSafe book.newName) docTag.Id
        (getTopicsByDocTagID w docTag.Id)) st.files with
    | error e => rw [hrun] at h; simp at h
    | ok fs =>
      rw [hrun] at h
      simp only [Except.ok.injEq] at h
      subst h
      have hpaths := runWrites_paths _ _ _ hrun
      have hlen : fs.length = st.files.length +
          (specBookWrites w m lib lang (lib.MakeURLSafe book.newName) docTag.Id
            (getTopicsByDocTagID w docTag.Id)).length := by
        have := congrArg List.length hpaths
        simpa using this
      rw [specBookWrites_length] at hlen
      have hsplit := filter_length_split bothBodiesEmpty
        ((getTopicsByDocTagID w docTag.Id).flatMap (orderedExamples w docTag.Id))
      have hsum := sum_map_length_flatMap (orderedExamples w docTag.Id)
        (getTopicsByDocTagID w docTag.Id)
      refine ⟨docTag, _, _, _, rfl, rfl, rfl, rfl, ?_, ?_, rfl, rfl, ?_, ?_⟩
      · simp only []
        omega
      · simp
      · simp only []
        omega
      · simp only []
        omega

/-- C20 on the sample book: 4 sections are reported, 3 section files are
written beside the 2 index files, and 1 example is skipped. -/
theorem genBook_section_count_witness :
    genBook sampleBookWorld sampleMdutil samplePathLib sampleBook "" sampleStart =
        .ok ⟨[("books/foo/0010-Intro/index.txt", "Title: Intro\n"),
            ("books/foo/0010-Intro/010-second.md", "Title: second\nScore: 9\nBody: B\n"),
            ("books/foo/0010-Intro/020-first.md", "Title: first\nScore: 5\nBody: A\n"),
            ("books/foo/0020-Next/index.txt", "Title: Next\n"),
            ("books/foo/0020-Next/010-third.md", "Title: third\nScore: 1\nBodyHtml: <p>C</p>\n")],
          [⟨102, 5, "blank", 7, false, " ", ""⟩], [⟨"Foo", 2, 4⟩]⟩ ∧
      ∃ (report : ImportReport) (written skipped : Nat),
        [(⟨"Foo", 2, 4⟩ : ImportReport)] = sampleStart.reports ++ [report] ∧
        5 = sampleStart.files.length + report.nChapters + written ∧
        1 = sampleStart.emptyExamplexs.length + skipped ∧
        report.nSections = written + skipped :=
  ⟨rfl, by
    obtain ⟨_, report, written, skipped, _, h2, _, _, h5, h6, _, _, h8, _⟩ :=
      genBook_section_count sampleBookWorld sampleMdutil samplePathLib sampleBook ""
        sampleStart _ rfl
    exact ⟨report, written, skipped, h2, h5, h6, h8⟩⟩

/-- On a slice of two examples `sort.Slice` makes one comparison: the second
example goes first exactly when the comparator puts it before the first. -/
theorem sortExamples_pair (x y : Example) :
    sortExamples [x, y] = if exampleLess y x then [y, x] else [x, y] := by
  simp [sortExamples, sortSlice, maxDepth, maxDepthLoop, quickSort_func, shellPass,
    insertionSort_func, insertionOuter, insertionInner, lessAt, dataAt, swapAt]

/-- The run of `genBook` in the scenario of the specification, with the texts
of the two sections as `sectionText` gives them: the index file, then the
section of example 101, then the section of example 100. -/
theorem scenarioRun_eq (titleA titleB newName lang : String) (m : Mdutil) (lib : PathLib)
    (st : RunState) :
    genBook (scenarioWorld titleA titleB) m lib ⟨"Foo", newName, true⟩ lang st =
      (do
        let second ← sectionText m lang ⟨101, 0, titleB, 9, true, "B", ""⟩
        let first ← sectionText m lang ⟨100, 0, titleA, 5, false, "A", ""⟩
        pure ⟨st.files ++
            [(lib.filepathJoin [lib.filepathJoin ["books", lib.MakeURLSafe newName,
                "0010-" ++ lib.MakeURLSafe "Intro"], "index.txt"], "Title: Intro\n"),
              (lib.filepathJoin [lib.filepathJoin ["books", lib.MakeURLSafe newName,
                "0010-" ++ lib.MakeURLSafe "Intro"],
                "010-" ++ lib.MakeURLSafe titleB ++ ".md"], second),
              (lib.filepathJoin [lib.filepathJoin ["books", lib.MakeURLSafe newName,
                "0010-" ++ lib.MakeURLSafe "Intro"],
                "020-" ++ lib.MakeURLSafe titleA ++ ".md"], first)],
          st.emptyExamplexs, st.reports ++ [⟨"Foo", 1, 2⟩]⟩) := by
  rw [genBook_eq]
  have htag : findDocTagByTitleMust (scenarioWorld titleA titleB).gDocTags
      (⟨"Foo", newName, true⟩ : Book).Name = .ok ⟨1, "Foo", 0, 0⟩ := rfl
  rw [htag]
  simp only
  have htopics : getTopicsByDocTagID (scenarioWorld titleA titleB) 1 =
      [⟨5, 1, "Intro", "", "", "", "", "", "", "", "", "", ""⟩] := rfl
  rw [htopics]
  have hres : getExamplesForTopic (scenarioWorld titleA titleB) 1 5 =
      [⟨100, 0, titleA, 5, false, "A", ""⟩, ⟨101, 0, titleB, 9, true, "B", ""⟩] := rfl
  have hex : orderedExamples (scenarioWorld titleA titleB) 1
      ⟨5, 1, "Intro", "", "", "", "", "", "", "", "", "", ""⟩ =
      [⟨101, 0, titleB, 9, true, "B", ""⟩, ⟨100, 0, titleA, 5, false, "A", ""⟩] := by
    unfold orderedExamples
    rw [hres, sortExamples_pair]
    rfl
  have hidx : indexText m lang ⟨5, 1, "Intro", "", "", "", "", "", "", "", "", "", ""⟩ =
      .ok "Title: Intro\n" := rfl
  have hb1 : bothBodiesEmpty ⟨101, 0, titleB, 9, true, "B", ""⟩ = false := rfl
  have hb2 : bothBodiesEmpty ⟨100, 0, titleA, 5, false, "A", ""⟩ = false := rfl
  have hd : chapterDirName lib (10 * (0 + 1))
      ⟨5, 1, "Intro", "", "", "", "", "", "", "", "", "", ""⟩ =
      "0010-" ++ lib.MakeURLSafe "Intro" := rfl
  have hf1 : sectionFileName lib (10 * (0 + 1)) ⟨101, 0, titleB, 9, true, "B", ""⟩ =
      "010-" ++ lib.MakeURLSafe titleB ++ ".md" := rfl
  have hf2 : sectionFileName lib (10 * (1 + 1)) ⟨100, 0, titleA, 5, false, "A", ""⟩ =
      "020-" ++ lib.MakeURLSafe titleA ++ ".md" := rfl
  have hplan : specBookWrites (scenarioWorld titleA titleB) m lib lang (lib.MakeURLSafe newName)
      1 [⟨5, 1, "Intro", "", "", "", "", "", "", "", "", "", ""⟩] =
      [(lib.filepathJoin [lib.filepathJoin ["books", lib.MakeURLSafe newName,
          "0010-" ++ lib.MakeURLSafe "Intro"], "index.txt"], .ok "Title: Intro\n"),
        (lib.filepathJoin [lib.filepathJoin ["books", lib.MakeURLSafe newName,
          "0010-" ++ lib.MakeURLSafe "Intro"], "010-" ++ lib.MakeURLSafe titleB ++ ".md"],
          sectionText m lang ⟨101, 0, titleB, 9, true, "B", ""⟩),
        (lib.filepathJoin [lib.filepathJoin ["books", lib.MakeURLSafe newName,
          "0010-" ++ lib.MakeURLSafe "Intro"], "020-" ++ lib.MakeURLSafe titleA ++ ".md"],
          sectionText m lang ⟨100, 0, titleA, 5, false, "A", ""⟩)] := by
    unfold specBookWrites specTopicWrites specChapterDir
    simp only [List.enum, List.enumFrom_cons, List.enumFrom_nil, List.flatMap_cons,
      List.flatMap_nil, List.append_nil, hex, hidx, List.filter_cons, hb1, hb2, Bool.not_false,
      if_true, List.filter_nil, List.map_cons, List.map_nil, hd, hf1, hf2]
  have hempty : List.filter bothBodiesEmpty
      (([⟨5, 1, "Intro", "", "", "", "", "", "", "", "", "", ""⟩] : List Topic).flatMap
        (orderedExamples (scenarioWorld titleA titleB) 1)) = [] := by
    simp only [List.flatMap_cons, List.flatMap_nil, List.append_nil, hex, List.filter_cons, hb1,
      hb2, Bool.false_eq_true, if_false, List.filter_nil]
  have hcount : (([⟨5, 1, "Intro", "", "", "", "", "", "", "", "", "", ""⟩] : List Topic).map
      (fun t => (orderedExamples (scenarioWorld titleA titleB) 1 t).length)).sum = 2 := by
    simp only [List.map_cons, List.map_nil, hex, List.length_cons, List.length_nil,
      List.sum_cons, List.sum_nil]
    rfl
  rw [hplan, hempty, hcount, List.append_nil]
  cases sectionText m lang ⟨101, 0, titleB, 9, true, "B", ""⟩ with
  | error e => rfl
  | ok c1 =>
    cases sectionText m lang ⟨100, 0, titleA, 5, false, "A", ""⟩ with
    | error e => rfl
    | ok c2 =>
      simp [runWrites, bind, Except.bind, pure, Except.pure]

/-- C14: in the scenario of the specification, for all titles of the two
examples whose `Title` fields serialize without the fatal error, and for every
slug, join and separator, `genBook` for the book `Foo` ends without error and
writes exactly three files, in this order: the index file of the chapter
directory `0010-<slug of Intro>`, the section file
`010-<slug of the title of example 101>.md` and the section file
`020-<slug of the title of example 100>.md` of that directory; it skips no
example and reports 1 chapter and 2 sections. -/
theorem genBook_scenario (titleA titleB newName lang : String) (m : Mdutil) (lib : PathLib)
    (st : RunState) (fieldA fieldB : String)
    (hA : serField m "Title" titleA = .ok fieldA)
    (hB : serField m "Title" titleB = .ok fieldB) :
    genBook (scenarioWorld titleA titleB) m lib ⟨"Foo", newName, true⟩ lang st =
      .ok ⟨st.files ++
          [(lib.filepathJoin [lib.filepathJoin ["books", lib.MakeURLSafe newName,
              "0010-" ++ lib.MakeURLSafe "Intro"], "index.txt"], "Title: Intro\n"),
            (lib.filepathJoin [lib.filepathJoin ["books", lib.MakeURLSafe newName,
              "0010-" ++ lib.MakeURLSafe "Intro"],
              "010-" ++ lib.MakeURLSafe titleB ++ ".md"], fieldB ++ "Score: 9\nBody: B\n"),
            (lib.filepathJoin [lib.filepathJoin ["books", lib.MakeURLSafe newName,
              "0010-" ++ lib.MakeURLSafe "Intro"],
              "020-" ++ lib.MakeURLSafe titleA ++ ".md"], fieldA ++ "Score: 5\nBody: A\n")],
        st.emptyExamplexs, st.reports ++ [⟨"Foo", 1, 2⟩]⟩ := by
  rw [scenarioRun_eq]
  have h1 : sectionText m lang ⟨101, 0, titleB, 9, true, "B", ""⟩ =
      .ok (fieldB ++ "Score: 9\nBody: B\n") := by
    rw [sectionText_fields]
    simp only [hB]
    show Except.ok (fieldB ++ "Score: 9\n" ++ "Body: B\n") = _
    rw [String.append_assoc]
    rfl
  have h2 : sectionText m lang ⟨100, 0, titleA, 5, false, "A", ""⟩ =
      .ok (fieldA ++ "Score: 5\nBody: A\n") := by
    rw [sectionText_fields]
    simp only [hA]
    show Except.ok (fieldA ++ "Score: 5\n" ++ "Body: A\n") = _
    rw [String.append_assoc]
    rfl
  rw [h1, h2]
  rfl

/-- C14 with the titles `Alpha` (example 100) and `Beta` (example 101). -/
theorem genBook_scenario_witness :
    serField sampleMdutil "Title" "Alpha" = .ok "Title: Alpha\n" ∧
    serField sampleMdutil "Title" "Beta" = .ok "Title: Beta\n" ∧
    genBook (scenarioWorld "Alpha" "Beta") sampleMdutil samplePathLib sampleBook "" sampleStart =
      .ok ⟨[("books/foo/0010-Intro/index.txt", "Title: Intro\n"),
          ("books/foo/0010-Intro/010-Beta.md", "Title: Beta\nScore: 9\nBody: B\n"),
          ("books/foo/0010-Intro/020-Alpha.md", "Title: Alpha\nScore: 5\nBody: A\n")],
        [], [⟨"Foo", 1, 2⟩]⟩ :=
  ⟨rfl, rfl, genBook_scenario "Alpha" "Beta" "foo" "" sampleMdutil samplePathLib sampleStart
    "Title: Alpha\n" "Title: Beta\n" rfl rfl⟩

end ImportStackOverflow
